import Mathlib

/-!
# Verification of the spannerdef schema differ

Shallow embedding of the spannerdef schema reconciler: the schema model,
the DDL differ (`GenerateDDLs`), the per-entity renderers, the executor
filter (`RunDDLs`), and a model of the external `memefish` DDL parser,
together with theorems settling the specification claims.
-/

namespace SpannerDef

/-- Column of a table (src/parser.go `Column`). `default` keeps the Go zero
value `""` when absent; `options` likewise. `order` is the position of the
column in the original DDL. -/
structure Column where
  name : String
  type : String
  notNull : Bool
  default : String
  options : String
  order : Int
  deriving Repr, DecidableEq, Inhabited

/-- Table constraint (src/parser.go `Constraint`): either a CHECK constraint
(`type = "CHECK"`, `expression` set) or a foreign key
(`type = "FOREIGN KEY"`, `columns`/`referenceTable`/`referenceColumns`/
`onDelete` set). -/
structure Constraint where
  name : String
  type : String
  expression : String
  columns : List String
  referenceTable : String
  referenceColumns : List String
  onDelete : String
  deriving Repr, DecidableEq, Inhabited

/-- Spanner table (src/parser.go `Table`). Go maps are embedded as
association lists whose list order stands for one possible map iteration
order. -/
structure Table where
  name : String
  columns : List (String × Column)
  primaryKey : List String
  parentTable : String
  onDelete : String
  constraints : List (String × Constraint)
  rowDeletionPolicyColumn : String
  rowDeletionPolicyDays : Int
  deriving Repr, DecidableEq, Inhabited

/-- Secondary index (src/parser.go `Index`). -/
structure Index where
  name : String
  tableName : String
  columns : List String
  unique : Bool
  nullFiltered : Bool
  storing : List String
  deriving Repr, DecidableEq, Inhabited

/-- Database schema (src/parser.go `Schema`): tables and indexes keyed by
name. -/
structure Schema where
  tables : List (String × Table)
  indexes : List (String × Index)
  deriving Repr, DecidableEq, Inhabited

/-- First-match lookup in an association list (Go map read `m[k]`). -/
def lookupA {α : Type} (m : List (String × α)) (k : String) : Option α :=
  match m with
  | [] => none
  | (k', v) :: rest => if k' = k then some v else lookupA rest k

/-- Key membership in an association list (Go `_, ok := m[k]`). -/
def containsKeyA {α : Type} (m : List (String × α)) (k : String) : Bool :=
  (lookupA m k).isSome

/-- Map assignment `m[k] = v`: replaces the binding in place when the key is
present, appends it otherwise (Go map write). -/
def insertA {α : Type} (m : List (String × α)) (k : String) (v : α) :
    List (String × α) :=
  match m with
  | [] => [(k, v)]
  | (k', v') :: rest =>
      if k' = k then (k', v) :: rest else (k', v') :: insertA rest k v

/-- Go `strings.Join(l, sep)`. -/
def joinStr (sep : String) (l : List String) : String :=
  String.intercalate sep l

/-- Helper for `goContains`: does `sub` occur as a contiguous run in `s`? -/
def goContainsAux (sub : List Char) : List Char → Bool
  | [] => sub.isEmpty
  | c :: rest => sub.isPrefixOf (c :: rest) || goContainsAux sub rest

/-- Go `strings.Contains(s, sub)`. -/
def goContains (s sub : String) : Bool :=
  goContainsAux sub.data s.data

/-! ## Renderers (src/parser.go `generateCreateTable`, `generateCreateIndex`,
and the statement formats used by the differ) -/

/-- Lexicographic comparison of character lists; agrees with Go's `<` on
strings (UTF-8 byte order coincides with code-point order). -/
def strLtL : List Char → List Char → Bool
  | _, [] => false
  | [], _ :: _ => true
  | a :: as, b :: bs =>
      if a.toNat < b.toNat then true
      else if b.toNat < a.toNat then false
      else strLtL as bs

/-- Go string `<`. -/
def goStrLt (a b : String) : Bool := strLtL a.data b.data

/-- A string containing no space character; identifiers in parsed schemas
satisfy this, and it is what makes the rendered statements unambiguous. -/
def noSpace (s : String) : Bool := s.data.all (fun c => c != ' ')

/-- The non-strict order on strings induced by `goStrLt`; sorting by this
relation is sorting ascending by Go `<`. -/
def goStrLe (a b : String) : Bool := !goStrLt b a

/-- One rendered column definition inside CREATE TABLE
(src/parser.go:447-454). -/
def columnDef (col : Column) : String :=
  "  " ++ col.name ++ " " ++ col.type
    ++ (if col.notNull then " NOT NULL" else "")
    ++ (if col.default ≠ "" then " DEFAULT " ++ col.default else "")

/-- Comparator used by `sort.Slice` in `generateCreateTable`: by stored
order, ties broken by name (src/parser.go:436-442). -/
def columnEntryLE (a b : String × Column) : Bool :=
  if a.2.order ≠ b.2.order then decide (a.2.order ≤ b.2.order)
  else goStrLe a.1 b.1

/-- Column entries of a table sorted by (order, name)
(src/parser.go:427-442). `sort.Slice` is modeled by insertion sort; the
comparator is total and never ties on distinct map keys, so any sorting
algorithm produces this list. -/
def sortedColumnEntries (t : Table) : List (String × Column) :=
  t.columns.insertionSort (fun a b => columnEntryLE a b = true)

/-- The rendered clause for one named constraint (src/parser.go:470-489). -/
def constraintClause (name : String) (c : Constraint) : String :=
  if c.type = "CHECK" then
    ",\n  CONSTRAINT " ++ name ++ " CHECK " ++ c.expression
  else if c.type = "FOREIGN KEY" then
    ",\n  CONSTRAINT " ++ name ++ " FOREIGN KEY ("
      ++ joinStr ", " c.columns ++ ") REFERENCES " ++ c.referenceTable
      ++ " (" ++ joinStr ", " c.referenceColumns ++ ")"
      ++ (if c.onDelete ≠ "" then " " ++ c.onDelete else "")
  else ""

/-- All constraint clauses, alphabetical by constraint name
(src/parser.go:460-491). -/
def constraintClauses (t : Table) : String :=
  let names :=
    (t.constraints.map Prod.fst).insertionSort (fun a b => goStrLe a b = true)
  joinStr "" (names.map (fun n =>
    match lookupA t.constraints n with
    | some c => constraintClause n c
    | none => ""))

/-- CREATE TABLE rendering (src/parser.go `generateCreateTable`). Columns
are sorted by (order, name) and, as in the Go code, the column value is
re-read from the map by name. -/
def generateCreateTable (table : Table) : String :=
  let columnDefs := (sortedColumnEntries table).map (fun e =>
    columnDef ((lookupA table.columns e.1).getD e.2))
  "CREATE TABLE " ++ table.name ++ " (\n"
    ++ joinStr ",\n" columnDefs
    ++ constraintClauses table
    ++ (if table.primaryKey ≠ [] then
          "\n) PRIMARY KEY (" ++ joinStr ", " table.primaryKey ++ ")"
        else "\n)")
    ++ (if table.parentTable ≠ "" then
          ",\nINTERLEAVE IN PARENT " ++ table.parentTable
            ++ (if table.onDelete ≠ "" then " " ++ table.onDelete else "")
        else "")
    ++ (if table.rowDeletionPolicyColumn ≠ "" ∧ table.rowDeletionPolicyDays > 0 then
          ",\nROW DELETION POLICY (OLDER_THAN(" ++ table.rowDeletionPolicyColumn
            ++ ", INTERVAL " ++ toString table.rowDeletionPolicyDays ++ " DAY))"
        else "")

/-- CREATE INDEX rendering (src/parser.go `generateCreateIndex`). Note that
the `nullFiltered` flag is never rendered. -/
def generateCreateIndex (index : Index) : String :=
  joinStr " "
    ([if index.unique then "CREATE UNIQUE INDEX" else "CREATE INDEX"]
      ++ [index.name, "ON", index.tableName,
          "(" ++ joinStr ", " index.columns ++ ")"]
      ++ (if index.storing ≠ [] then
            ["STORING (" ++ joinStr ", " index.storing ++ ")"]
          else []))

/-! ## Differ (src/parser.go `GenerateDDLs` and helpers) -/

/-- ADD COLUMN statement (src/parser.go:546-552). -/
def addColumnDDL (tname : String) (col : Column) : String :=
  "ALTER TABLE " ++ tname ++ " ADD COLUMN " ++ col.name ++ " " ++ col.type
    ++ (if col.notNull then " NOT NULL" else "")
    ++ (if col.default ≠ "" then " DEFAULT " ++ col.default else "")

/-- Foreign-key field comparison used by `generateAlterTable`
(src/parser.go:568-571): columns are compared after joining with a comma. -/
def fkDiffers (cc dc : Constraint) : Bool :=
  joinStr "," cc.columns != joinStr "," dc.columns
    || cc.referenceTable != dc.referenceTable
    || joinStr "," cc.referenceColumns != joinStr "," dc.referenceColumns
    || cc.onDelete != dc.onDelete

/-- Does the constraint present in both tables force a drop
(src/parser.go:563-574)? Dispatch is on the current constraint's type. -/
def constraintNeedsDrop (cc dc : Constraint) : Bool :=
  if cc.type = "CHECK" then cc.expression != dc.expression
  else if cc.type = "FOREIGN KEY" then fkDiffers cc dc
  else false

/-- Does the constraint present in both tables force a recreate
(src/parser.go:607-618)? Dispatch is on the desired constraint's type. -/
def constraintNeedsRecreate (cc dc : Constraint) : Bool :=
  if dc.type = "CHECK" then cc.expression != dc.expression
  else if dc.type = "FOREIGN KEY" then fkDiffers cc dc
  else false

/-- ADD CONSTRAINT statement; `none` for constraint types the generator does
not render (src/parser.go:620-635). -/
def addConstraintDDL (tname cname : String) (dc : Constraint) : Option String :=
  if dc.type = "CHECK" then
    some ("ALTER TABLE " ++ tname ++ " ADD CONSTRAINT " ++ cname
      ++ " CHECK " ++ dc.expression)
  else if dc.type = "FOREIGN KEY" then
    some ("ALTER TABLE " ++ tname ++ " ADD CONSTRAINT " ++ cname
      ++ " FOREIGN KEY (" ++ joinStr ", " dc.columns ++ ") REFERENCES "
      ++ dc.referenceTable ++ " (" ++ joinStr ", " dc.referenceColumns ++ ")"
      ++ (if dc.onDelete ≠ "" then " " ++ dc.onDelete else ""))
  else none

/-- ALTER TABLE statements for one table present in both schemas
(src/parser.go `generateAlterTable`). The five segments appear in source
order: add columns, drop constraints, drop columns, alter column types,
add constraints. -/
def generateAlterTable (current desired : Table) : List String :=
  (desired.columns.filterMap (fun e =>
    if containsKeyA current.columns e.1 then none
    else some (addColumnDDL desired.name e.2)))
  ++ (current.constraints.filterMap (fun e =>
    let needsDrop :=
      match lookupA desired.constraints e.1 with
      | none => true
      | some dc => constraintNeedsDrop e.2 dc
    if needsDrop then
      some ("ALTER TABLE " ++ desired.name ++ " DROP CONSTRAINT " ++ e.1)
    else none))
  ++ (current.columns.filterMap (fun e =>
    if containsKeyA desired.columns e.1 then none
    else some ("ALTER TABLE " ++ desired.name ++ " DROP COLUMN " ++ e.1)))
  ++ (desired.columns.filterMap (fun e =>
    match lookupA current.columns e.1 with
    | some ccol =>
        if ccol.type != e.2.type then
          some ("ALTER TABLE " ++ desired.name ++ " ALTER COLUMN " ++ e.1
            ++ " " ++ e.2.type ++ (if e.2.notNull then " NOT NULL" else ""))
        else none
    | none => none))
  ++ (desired.constraints.filterMap (fun e =>
    match lookupA current.constraints e.1 with
    | some cc =>
        if constraintNeedsRecreate cc e.2 then
          addConstraintDDL desired.name e.1 e.2
        else none
    | none => addConstraintDDL desired.name e.1 e.2))

/-- DROP INDEX statements: indexes absent from desired, or whose table is
absent from desired (src/parser.go `generateDropIndexDDLs`). -/
def generateDropIndexDDLs (current desired : Schema) : List String :=
  current.indexes.filterMap (fun e =>
    if !containsKeyA desired.indexes e.1
        || !containsKeyA desired.tables e.2.tableName then
      some ("DROP INDEX " ++ e.1)
    else none)

/-- DROP TABLE statements (src/parser.go `generateDropTableDDLs`). -/
def generateDropTableDDLs (current desired : Schema) : List String :=
  current.tables.filterMap (fun e =>
    if containsKeyA desired.tables e.1 then none
    else some ("DROP TABLE " ++ e.1))

/-- ALTER TABLE statements for all tables present in both schemas
(src/parser.go `generateAlterTableDDLs`). -/
def generateAlterTableDDLs (current desired : Schema) : List String :=
  desired.tables.flatMap (fun e =>
    match lookupA current.tables e.1 with
    | some ct => generateAlterTable ct e.2
    | none => [])

/-- State of the dependency sort (`result`/`processed` in
src/parser.go `sortTablesByDependency`). -/
structure SortState where
  result : List Table
  processed : List String
  deriving Repr, DecidableEq

/-- Dependencies of a table inside the set to be created: the parent table
(if any) followed by foreign-key referenced tables, in constraint order
(src/parser.go:379-393). -/
def tableDeps (tableMap : List (String × Table)) (t : Table) : List Table :=
  (if t.parentTable ≠ "" then
    match lookupA tableMap t.parentTable with
    | some p => [p]
    | none => []
  else [])
  ++ t.constraints.filterMap (fun e =>
      if e.2.type = "FOREIGN KEY" then lookupA tableMap e.2.referenceTable
      else none)

/-- The recursive `processTable` closure of `sortTablesByDependency`
(src/parser.go:373-398). The Go original recurses with no bound and never
terminates on cyclic dependencies; the embedding makes each nested call
consume one unit of fuel, `none` standing for the unbounded recursion. -/
def processTable (tableMap : List (String × Table)) :
    Nat → SortState → Table → Option SortState
  | 0, _, _ => none
  | fuel + 1, st, t =>
      if t.name ∈ st.processed then some st
      else
        match (tableDeps tableMap t).foldlM (processTable tableMap fuel) st with
        | none => none
        | some st' => some ⟨st'.result ++ [t], st'.processed ++ [t.name]⟩

/-- The name-keyed lookup map of `sortTablesByDependency`
(src/parser.go:368-371). -/
def buildTableMap (tables : List Table) : List (String × Table) :=
  tables.foldl (fun m t => insertA m t.name t) []

/-- The ordering invariant of the dependency sort's output: every table in
the list is preceded by all of its dependencies from the table map. -/
def ForwardClosed (tm : List (String × Table)) (res : List Table) : Prop :=
  ∀ pre t post, res = pre ++ t :: post → ∀ p ∈ tableDeps tm t, p ∈ pre

/-- Dependency sort over the tables to be created
(src/parser.go `sortTablesByDependency`). Each top-level call receives
fuel `tables.length + 1`, which suffices whenever the dependency graph is
acyclic; `none` models the Go code's unbounded recursion on a cycle. -/
def sortTablesByDependency (tables : List Table) : Option (List Table) :=
  let tableMap := buildTableMap tables
  match tables.foldlM
      (fun st t => processTable tableMap (tables.length + 1) st t) ⟨[], []⟩ with
  | none => none
  | some st => some st.result

/-- CREATE TABLE statements for tables absent from current, in dependency
order (src/parser.go `generateCreateTableDDLs`). -/
def generateCreateTableDDLs (current desired : Schema) : Option (List String) :=
  let newTables := desired.tables.filterMap (fun e =>
    if containsKeyA current.tables e.1 then none else some e.2)
  (sortTablesByDependency newTables).map (·.map generateCreateTable)

/-- CREATE INDEX statements for indexes absent from current
(src/parser.go `generateCreateIndexDDLs`). -/
def generateCreateIndexDDLs (current desired : Schema) : List String :=
  desired.indexes.filterMap (fun e =>
    if containsKeyA current.indexes e.1 then none
    else some (generateCreateIndex e.2))

/-- The full plan (src/parser.go `GenerateDDLs`): drop indexes, drop tables,
alter tables, create tables, create indexes. `none` models the original's
non-termination inside the dependency sort. -/
def GenerateDDLs (current desired : Schema) : Option (List String) :=
  match generateCreateTableDDLs current desired with
  | none => none
  | some createTableDDLs =>
      some (generateDropIndexDDLs current desired
        ++ generateDropTableDDLs current desired
        ++ generateAlterTableDDLs current desired
        ++ createTableDDLs
        ++ generateCreateIndexDDLs current desired)

/-! ## Executor filter (src/database/database.go `RunDDLs`) -/

/-- Is this statement filtered out of the executed batch
(src/database/database.go:38-40)? Note that `DROP CONSTRAINT` is not in
the filtered set. -/
def ddlIsSkipped (enableDrop : Bool) (ddl : String) : Bool :=
  !enableDrop && (goContains ddl "DROP TABLE"
    || goContains ddl "DROP INDEX"
    || goContains ddl "DROP COLUMN")

/-- The batch handed to `ExecDDLs` (`validDDLs` in
src/database/database.go `RunDDLs`). -/
def runValidDDLs (ddls : List String) (enableDrop : Bool) : List String :=
  ddls.filter (fun ddl => !ddlIsSkipped enableDrop ddl)

/-- The lines printed by `RunDDLs` (src/database/database.go:33-46):
skipped statements are echoed with a `-- Skipped: ` marker. -/
def runDDLsOutput (ddls : List String) (enableDrop : Bool) : List String :=
  "-- Apply --" :: ddls.map (fun ddl =>
    if ddlIsSkipped enableDrop ddl then "-- Skipped: " ++ ddl else ddl)

/-! ## Parser front end

The repository delegates SQL parsing to the external memefish library
(src/parser.go:74), whose code is not part of this repository. The lexer
and statement parser below are therefore modelled from the spec's account
of the accepted DDL syntax; everything from `processStatement` on is
translated from src/parser.go. -/

/-- Modelled from the spec: whitespace characters separating tokens. -/
def isSpaceChar (c : Char) : Bool :=
  c = ' ' || c = '\n' || c = '\t' || c = '\r'

/-- Modelled from the spec: identifier/number characters
(letters, digits, underscore). -/
def isWordChar (c : Char) : Bool :=
  (97 ≤ c.toNat && c.toNat ≤ 122) || (65 ≤ c.toNat && c.toNat ≤ 90)
    || (48 ≤ c.toNat && c.toNat ≤ 57) || c = '_'

/-- A nonempty string made only of word characters (a lexer token that is
an identifier, keyword or number). -/
def isWordStr (s : String) : Bool :=
  !s.data.isEmpty && s.data.all isWordChar

/-- Modelled from the spec: the lexer. `acc` holds the reversed characters
of the word being read; maximal word runs become one token, every other
non-space character is a one-character token, whitespace only
separates. -/
def tokenizeAux : List Char → List Char → List String
  | [], acc => if acc.isEmpty then [] else [String.mk acc.reverse]
  | c :: cs, acc =>
      if isWordChar c then tokenizeAux cs (c :: acc)
      else
        let pre := if acc.isEmpty then [] else [String.mk acc.reverse]
        if isSpaceChar c then pre ++ tokenizeAux cs []
        else pre ++ String.mk [c] :: tokenizeAux cs []

/-- Modelled from the spec: tokenize a character list. -/
def tokenize (l : List Char) : List String := tokenizeAux l []

/-- Modelled from the spec: DDL texts are sequences of statements
separated by `;`. Splits into fragments at every semicolon (a text with no
semicolon is one fragment). -/
def splitSemi : List Char → List (List Char)
  | [] => [[]]
  | c :: rest =>
      if c = ';' then [] :: splitSemi rest
      else
        match splitSemi rest with
        | [] => [[c]]
        | f :: fs => (c :: f) :: fs

/-- Decimal digit value of a character, if any. -/
def digitVal (c : Char) : Option Nat :=
  if 48 ≤ c.toNat && c.toNat ≤ 57 then some (c.toNat - 48) else none

/-- Helper of `parseNat`. -/
def parseNatAux : List Char → Nat → Option Nat
  | [], acc => some acc
  | c :: cs, acc =>
      match digitVal c with
      | some d => parseNatAux cs (acc * 10 + d)
      | none => none

/-- Modelled from the spec: a decimal integer literal. -/
def parseNat (s : String) : Option Nat :=
  if s.data.isEmpty then none else parseNatAux s.data 0

/-- Column definition node of the parsed AST (the fields of memefish's
`ast.ColumnDef` read by src/parser.go:112-131): `type` and `defaultExpr`
carry the SQL text of the respective syntax nodes. -/
structure ASTColumn where
  name : String
  type : String
  notNull : Bool
  defaultExpr : Option String
  primaryKey : Bool
  deriving Repr, DecidableEq

/-- Table constraint node variants read by src/parser.go:146-183. -/
inductive ASTConstraint where
  | check (expr : String)
  | foreignKey (columns : List String) (referenceTable : String)
      (referenceColumns : List String) (onDelete : String)
  deriving Repr, DecidableEq

/-- A possibly named table constraint (src/parser.go:140-144). -/
structure ASTTableConstraint where
  name : Option String
  constraint : ASTConstraint
  deriving Repr, DecidableEq

/-- CREATE TABLE node (the fields of memefish's `ast.CreateTable` read by
src/parser.go:102-205): `cluster` is the interleave clause (parent name,
ON DELETE text), `rowDeletionPolicy` is (column, days). -/
structure ASTCreateTable where
  name : String
  columns : List ASTColumn
  primaryKeys : List String
  cluster : Option (String × String)
  rowDeletionPolicy : Option (String × Int)
  tableConstraints : List ASTTableConstraint
  deriving Repr, DecidableEq

/-- CREATE INDEX node (the fields of memefish's `ast.CreateIndex` read by
src/parser.go:212-233). -/
structure ASTCreateIndex where
  name : String
  tableName : String
  keys : List String
  unique : Bool
  nullFiltered : Bool
  storing : List String
  deriving Repr, DecidableEq

/-- A parsed DDL statement: the two kinds src/parser.go:89-99 processes,
and `other` for every further DDL kind, which `processStatement`
ignores. -/
inductive Stmt where
  | createTable (ct : ASTCreateTable)
  | createIndex (ci : ASTCreateIndex)
  | other
  deriving Repr, DecidableEq

/-- Modelled from the spec: a parenthesis-balanced token run. Collects
tokens until the `)` matching an already-consumed `(`, returning the runs
inside and after it. -/
def takeBalanced : List String → Nat → List String →
    Option (List String × List String)
  | [], _, _ => none
  | t :: rest, depth, acc =>
      if t = ")" then
        if depth = 0 then some (acc.reverse, rest)
        else takeBalanced rest (depth - 1) (t :: acc)
      else if t = "(" then takeBalanced rest (depth + 1) (t :: acc)
      else takeBalanced rest depth (t :: acc)

/-- Modelled from the spec: split a token run at top-level commas (commas
inside parentheses do not split). -/
def splitTopCommaAux : List String → Nat → List String → List (List String)
  | [], _, acc => [acc.reverse]
  | t :: rest, depth, acc =>
      if t = "," ∧ depth = 0 then acc.reverse :: splitTopCommaAux rest 0 []
      else if t = "(" then splitTopCommaAux rest (depth + 1) (t :: acc)
      else if t = ")" then splitTopCommaAux rest (depth - 1) (t :: acc)
      else splitTopCommaAux rest depth (t :: acc)

/-- Modelled from the spec: top-level comma split of a token run. -/
def splitTopComma (ts : List String) : List (List String) :=
  splitTopCommaAux ts 0 []

/-- Modelled from the spec: a comma-separated identifier list closed by
`)`; returns the identifiers and the tokens after the `)`. -/
def parseCommaIds : List String → Option (List String × List String)
  | [] => none
  | t :: rest =>
      if t = ")" then some ([], rest)
      else
        match rest with
        | [] => none
        | t₂ :: rest₂ =>
            if t₂ = "," then
              match parseCommaIds rest₂ with
              | some (ids, r) => some (t :: ids, r)
              | none => none
            else if t₂ = ")" then some ([t], rest₂)
            else none

/-- Modelled from the spec: the type of a column definition runs from the
token after the column name up to `NOT`, `DEFAULT`, `PRIMARY` or the end;
its SQL text is the concatenation of its tokens. -/
def parseColumnType : List String → List String × List String
  | [] => ([], [])
  | t :: rest =>
      if t = "NOT" || t = "DEFAULT" || t = "PRIMARY" then ([], t :: rest)
      else
        match parseColumnType rest with
        | (ty, r) => (t :: ty, r)

/-- Modelled from the spec: the optional column attributes, in syntactic
order: `NOT NULL`, then `DEFAULT (expr)`, then an inline `PRIMARY KEY`.
The default expression's SQL text is its tokens joined by single
spaces. -/
def parseColFlags (ts : List String) : Option (Bool × Option String × Bool) :=
  let p := match ts with
    | "NOT" :: "NULL" :: r => (true, r)
    | _ => (false, ts)
  match p.2 with
  | "DEFAULT" :: "(" :: r =>
      match takeBalanced r 0 [] with
      | none => none
      | some (e, r₂) =>
          match r₂ with
          | [] => some (p.1, some (joinStr " " e), false)
          | ["PRIMARY", "KEY"] => some (p.1, some (joinStr " " e), true)
          | _ => none
  | ["PRIMARY", "KEY"] => some (p.1, none, true)
  | [] => some (p.1, none, false)
  | _ => none

/-- Modelled from the spec: one column definition `name type [attrs]`. -/
def parseColumnDef : List String → Option ASTColumn
  | [] => none
  | name :: rest =>
      match parseColumnType rest with
      | ([], _) => none
      | (ty, rest₂) =>
          match parseColFlags rest₂ with
          | none => none
          | some (nn, df, pk) => some ⟨name, String.join ty, nn, df, pk⟩

/-- Modelled from the spec: an unnamed constraint body: `CHECK (expr)` or
`FOREIGN KEY (cols) REFERENCES table (cols) [ON DELETE ...]`. Expression
SQL text is its tokens joined by single spaces. -/
def parseConstraintBody : List String → Option ASTConstraint
  | "CHECK" :: "(" :: rest =>
      match takeBalanced rest 0 [] with
      | some (e, []) => some (.check (joinStr " " e))
      | _ => none
  | "FOREIGN" :: "KEY" :: "(" :: rest =>
      match parseCommaIds rest with
      | none => none
      | some (cols, "REFERENCES" :: rt :: "(" :: rest₂) =>
          match parseCommaIds rest₂ with
          | some (rcols, []) => some (.foreignKey cols rt rcols "")
          | some (rcols, ["ON", "DELETE", "CASCADE"]) =>
              some (.foreignKey cols rt rcols "ON DELETE CASCADE")
          | some (rcols, ["ON", "DELETE", "NO", "ACTION"]) =>
              some (.foreignKey cols rt rcols "ON DELETE NO ACTION")
          | _ => none
      | some (_, _) => none
  | _ => none

/-- Modelled from the spec: one item of a CREATE TABLE body: either a
column definition or a (possibly named) table constraint. -/
def parseTableItem (ts : List String) :
    Option (Sum ASTColumn ASTTableConstraint) :=
  match ts with
  | "CONSTRAINT" :: cname :: rest =>
      (parseConstraintBody rest).map (fun cb => Sum.inr ⟨some cname, cb⟩)
  | "CHECK" :: rest =>
      (parseConstraintBody ("CHECK" :: rest)).map (fun cb => Sum.inr ⟨none, cb⟩)
  | "FOREIGN" :: rest =>
      (parseConstraintBody ("FOREIGN" :: rest)).map
        (fun cb => Sum.inr ⟨none, cb⟩)
  | _ => (parseColumnDef ts).map Sum.inl

/-- Modelled from the spec: all body items, keeping column order and
constraint order. -/
def parseItems : List (List String) →
    Option (List ASTColumn × List ASTTableConstraint)
  | [] => some ([], [])
  | it :: its =>
      match parseTableItem it, parseItems its with
      | some (Sum.inl c), some (cs, ts) => some (c :: cs, ts)
      | some (Sum.inr tc), some (cs, ts) => some (cs, tc :: ts)
      | _, _ => none

/-- Modelled from the spec: the optional trailing
`, ROW DELETION POLICY (OLDER_THAN(col, INTERVAL n DAY))` clause. -/
def parseRDP : List String → Option (Option (String × Int))
  | [] => some none
  | "," :: "ROW" :: "DELETION" :: "POLICY" :: "(" :: "OLDER_THAN" :: "("
      :: col :: "," :: "INTERVAL" :: n :: "DAY" :: ")" :: ")" :: [] =>
      (parseNat n).map (fun d => some (col, (d : Int)))
  | _ => none

/-- Modelled from the spec: the optional
`, INTERLEAVE IN PARENT name [ON DELETE ...]` clause followed by the row
deletion policy. -/
def parseTableSuffix2 (ts : List String) :
    Option (Option (String × String) × Option (String × Int)) :=
  match ts with
  | "," :: "INTERLEAVE" :: "IN" :: "PARENT" :: pname :: rest =>
      match rest with
      | "ON" :: "DELETE" :: "CASCADE" :: rest₂ =>
          (parseRDP rest₂).map (fun r => (some (pname, "ON DELETE CASCADE"), r))
      | "ON" :: "DELETE" :: "NO" :: "ACTION" :: rest₂ =>
          (parseRDP rest₂).map
            (fun r => (some (pname, "ON DELETE NO ACTION"), r))
      | _ => (parseRDP rest).map (fun r => (some (pname, ""), r))
  | _ => (parseRDP ts).map (fun r => (none, r))

/-- Modelled from the spec: the table suffix after the closing `)` of the
body: optional `PRIMARY KEY (cols)`, then interleave and row deletion
policy clauses. -/
def parseTableSuffix (ts : List String) :
    Option (List String × Option (String × String) × Option (String × Int)) :=
  match ts with
  | "PRIMARY" :: "KEY" :: "(" :: rest =>
      match parseCommaIds rest with
      | none => none
      | some (pks, rest₂) =>
          (parseTableSuffix2 rest₂).map (fun p => (pks, p.1, p.2))
  | _ => (parseTableSuffix2 ts).map (fun p => ([], p.1, p.2))

/-- Modelled from the spec: `CREATE TABLE name ( body ) suffix`. -/
def parseCreateTable : List String → Option ASTCreateTable
  | name :: "(" :: rest =>
      match takeBalanced rest 0 [] with
      | none => none
      | some (body, suffix) =>
          match parseItems (if body.isEmpty then [] else splitTopComma body) with
          | none => none
          | some (cols, tcs) =>
              match parseTableSuffix suffix with
              | none => none
              | some (pks, cluster, rdp) =>
                  some ⟨name, cols, pks, cluster, rdp, tcs⟩
  | _ => none

/-- Modelled from the spec:
`CREATE [UNIQUE] [NULL_FILTERED] INDEX name ON table ( keys )
[STORING ( cols )]`. -/
def parseCreateIndex (unique nf : Bool) : List String → Option ASTCreateIndex
  | name :: "ON" :: table :: "(" :: rest =>
      match parseCommaIds rest with
      | none => none
      | some (keys, rest₂) =>
          match rest₂ with
          | [] => some ⟨name, table, keys, unique, nf, []⟩
          | "STORING" :: "(" :: rest₃ =>
              match parseCommaIds rest₃ with
              | some (stor, []) => some ⟨name, table, keys, unique, nf, stor⟩
              | _ => none
          | _ => none
  | _ => none

/-- Modelled from the spec: classify one statement by its leading
keywords. DROP and ALTER statements are valid DDL and parse to a node
that `processStatement` then ignores; anything else unrecognized is a
parse error. -/
def parseStatement : List String → Option Stmt
  | "CREATE" :: "TABLE" :: rest => (parseCreateTable rest).map .createTable
  | "CREATE" :: "INDEX" :: rest =>
      (parseCreateIndex false false rest).map .createIndex
  | "CREATE" :: "UNIQUE" :: "INDEX" :: rest =>
      (parseCreateIndex true false rest).map .createIndex
  | "CREATE" :: "UNIQUE" :: "NULL_FILTERED" :: "INDEX" :: rest =>
      (parseCreateIndex true true rest).map .createIndex
  | "CREATE" :: "NULL_FILTERED" :: "INDEX" :: rest =>
      (parseCreateIndex false true rest).map .createIndex
  | "DROP" :: _ => some .other
  | "ALTER" :: _ => some .other
  | _ => none

/-- Column map built by the loop of src/parser.go:112-132: position `i`
becomes `Order`, an absent DEFAULT is the zero value `""`, a present one
is parenthesized, an inline PRIMARY KEY becomes
`Options = "PRIMARY KEY"`. -/
def buildColumns : List ASTColumn → Int → List (String × Column) →
    List (String × Column)
  | [], _, m => m
  | c :: cs, i, m =>
      buildColumns cs (i + 1) (insertA m c.name
        ⟨c.name, c.type, c.notNull,
          (match c.defaultExpr with
           | some e => "(" ++ e ++ ")"
           | none => ""),
          (if c.primaryKey then "PRIMARY KEY" else ""), i⟩)

/-- Constraint map built by the loop of src/parser.go:140-184: missing
names are synthesized as `CK_table_n`/`FK_table_n` from the map size at
insertion time, CHECK expressions are parenthesized. -/
def buildConstraints (tableName : String) :
    List ASTTableConstraint → List (String × Constraint) →
    List (String × Constraint)
  | [], m => m
  | tc :: tcs, m =>
      match tc.constraint with
      | .check expr =>
          let cname := match tc.name with
            | some n => n
            | none => "CK_" ++ tableName ++ "_" ++ toString m.length
          buildConstraints tableName tcs
            (insertA m cname ⟨cname, "CHECK", "(" ++ expr ++ ")", [], "", [], ""⟩)
      | .foreignKey cols refT refCols onDel =>
          let cname := match tc.name with
            | some n => n
            | none => "FK_" ++ tableName ++ "_" ++ toString m.length
          buildConstraints tableName tcs
            (insertA m cname ⟨cname, "FOREIGN KEY", "", cols, refT, refCols,
              onDel⟩)

/-- The Table record built by `processCreateTable`
(src/parser.go:102-208). The Go code can fail only in `strconv.ParseInt`
on the row-deletion-policy day count; the parser model already delivers
that count as an integer, so the construction is total. -/
def tableFromAST (ct : ASTCreateTable) : Table :=
  ⟨ct.name, buildColumns ct.columns 0 [], ct.primaryKeys,
    (match ct.cluster with
     | some p => p.1
     | none => ""),
    (match ct.cluster with
     | some p => p.2
     | none => ""),
    buildConstraints ct.name ct.tableConstraints [],
    (match ct.rowDeletionPolicy with
     | some p => p.1
     | none => ""),
    (match ct.rowDeletionPolicy with
     | some p => p.2
     | none => 0)⟩

/-- The Index record built by `processCreateIndex`
(src/parser.go:212-237). -/
def indexFromAST (ci : ASTCreateIndex) : Index :=
  ⟨ci.name, ci.tableName, ci.keys, ci.unique, ci.nullFiltered, ci.storing⟩

/-- `processCreateTable` (src/parser.go:102-209): builds the table and
assigns it into the schema's table map (overwriting any previous entry of
the same name). -/
def processCreateTable (schema : Schema) (ct : ASTCreateTable) : Schema :=
  ⟨insertA schema.tables ct.name (tableFromAST ct), schema.indexes⟩

/-- `processCreateIndex` (src/parser.go:212-237): builds the index and
assigns it into the schema's index map (overwriting any previous entry of
the same name). -/
def processCreateIndex (schema : Schema) (ci : ASTCreateIndex) : Schema :=
  ⟨schema.tables, insertA schema.indexes ci.name (indexFromAST ci)⟩

/-- `processStatement` (src/parser.go:89-99): CREATE TABLE and
CREATE INDEX update the schema, every other DDL kind is ignored. -/
def processStatement (schema : Schema) : Stmt → Schema
  | .createTable ct => processCreateTable schema ct
  | .createIndex ci => processCreateIndex schema ci
  | .other => schema

/-- One statement fragment of the input: blank fragments are skipped,
anything else must parse and is processed (src/parser.go:79-83). -/
def stepFragment (sch : Schema) (frag : List Char) : Option Schema :=
  match tokenize frag with
  | [] => some sch
  | t :: ts =>
      match parseStatement (t :: ts) with
      | none => none
      | some stmt => some (processStatement sch stmt)

/-- Sequential fold of `stepFragment` over the statement fragments; a
parse error anywhere fails the whole parse (src/parser.go:74-83). -/
def foldFragments : List (List Char) → Schema → Option Schema
  | [], sch => some sch
  | f :: fs, sch =>
      match stepFragment sch f with
      | none => none
      | some sch' => foldFragments fs sch'

/-- `ParseDDLs` (src/parser.go:63-86): blank input yields the empty
schema without parsing; otherwise the text is split into statements and
each is processed in order. -/
def ParseDDLs (ddls : String) : Option Schema :=
  if ddls.data.all isSpaceChar then some ⟨[], []⟩
  else foldFragments (splitSemi ddls.data) ⟨[], []⟩

/-- A statement text that re-parsing ignores: it contains no semicolon
and is blank or led by the keyword DROP or ALTER. -/
def fragmentIgnored (p : String) : Bool :=
  p.data.all (fun c => c != ';') &&
    match tokenize p.data with
    | [] => true
    | t :: _ => t == "DROP" || t == "ALTER"

/-- The token run of a comma-separated identifier list (the lexer's view
of `joinStr ", " ks`). -/
def commaToks : List String → List String
  | [] => []
  | [k] => [k]
  | k :: ks => k :: "," :: commaToks ks

/-- Does this statement (re)define the table named `n`? -/
def definesTable (n : String) : Stmt → Bool
  | .createTable ct => ct.name == n
  | _ => false

/-- Does this statement (re)define the index named `n`? -/
def definesIndex (n : String) : Stmt → Bool
  | .createIndex ci => ci.name == n
  | _ => false

/-! ## Concrete schemas used by counterexamples and witnesses -/

/-- A one-column table `t` carrying a CHECK constraint `c`. -/
def exConTable : Table :=
  ⟨"t", [("a", ⟨"a", "INT64", true, "", "", 0⟩)], ["a"], "", "",
    [("c", ⟨"c", "CHECK", "(a > 0)", [], "", [], ""⟩)], "", 0⟩

/-- The same table without the constraint. -/
def exPlainTable : Table :=
  ⟨"t", [("a", ⟨"a", "INT64", true, "", "", 0⟩)], ["a"], "", "", [], "", 0⟩

/-- `exPlainTable` with a different primary key, parent table, table-level
ON DELETE and row deletion policy, but identical columns and constraints. -/
def exTableLevelChanged : Table :=
  ⟨"t", [("a", ⟨"a", "INT64", true, "", "", 0⟩)], ["a", "b"], "p",
    "ON DELETE CASCADE", [], "created_at", 30⟩

/-- Columns for the C7 counterexample: current flavor. -/
def exColsCur : List (String × Column) :=
  [("a", ⟨"a", "INT64", false, "", "", 0⟩),
   ("b", ⟨"b", "TIMESTAMP", false, "", "", 1⟩)]

/-- Columns for the C7 counterexample: desired flavor. `a` differs only in
NOT NULL, `b` differs only in DEFAULT. -/
def exColsDes : List (String × Column) :=
  [("a", ⟨"a", "INT64", true, "", "", 0⟩),
   ("b", ⟨"b", "TIMESTAMP", false, "(CURRENT_TIMESTAMP())", "", 1⟩)]

/-- Current table for the C7 counterexample. -/
def exC7cur : Table := ⟨"t", exColsCur, ["a"], "", "", [], "", 0⟩

/-- Desired table for the C7 counterexample. -/
def exC7des : Table := ⟨"t", exColsDes, ["a"], "", "", [], "", 0⟩

/-- Desired table whose column `a` changes type (for the C7 witness). -/
def exC7desTy : Table :=
  ⟨"t", [("a", ⟨"a", "STRING(10)", false, "", "", 0⟩),
    ("b", ⟨"b", "TIMESTAMP", false, "", "", 1⟩)], ["a"], "", "", [], "", 0⟩

/-- Table `A`, interleaved in parent `B` (half of a dependency cycle). -/
def exCycA : Table :=
  ⟨"A", [("id", ⟨"id", "INT64", true, "", "", 0⟩)], ["id"], "B", "", [], "", 0⟩

/-- Table `B`, interleaved in parent `A` (the other half of the cycle). -/
def exCycB : Table :=
  ⟨"B", [("id", ⟨"id", "INT64", true, "", "", 0⟩)], ["id"], "A", "", [], "", 0⟩

/-- The schema parsed from
`CREATE TABLE old_table (id INT64 NOT NULL) PRIMARY KEY (id)`. -/
def exOldSchema : Schema :=
  ⟨[("old_table", ⟨"old_table",
      [("id", ⟨"id", "INT64", true, "", "", 0⟩)],
      ["id"], "", "", [], "", 0⟩)], []⟩

/-- The schema parsed from a table `t` plus a NULL_FILTERED index `idx`. -/
def exNFSchema : Schema :=
  ⟨[("t", ⟨"t", [("id", ⟨"id", "INT64", true, "", "", 0⟩)],
      ["id"], "", "", [], "", 0⟩)],
   [("idx", ⟨"idx", "t", ["id"], false, true, []⟩)]⟩

/-- A stand-alone table `users` (a parent to interleave into). -/
def exParent : Table :=
  ⟨"users", [("id", ⟨"id", "INT64", true, "", "", 0⟩)], ["id"], "", "", [], "", 0⟩

/-- A table `posts` interleaved in parent `users`. -/
def exChild : Table :=
  ⟨"posts", [("id", ⟨"id", "INT64", true, "", "", 0⟩)], ["id"], "users", "",
    [], "", 0⟩

/-- An index on table `t` keyed on column `a`. -/
def exIdxA : Index := ⟨"idx", "t", ["a"], false, false, []⟩

/-- A structurally different index of the same name: other key column,
unique, null-filtered, with storing. -/
def exIdxB : Index := ⟨"idx", "t", ["b"], true, true, ["c"]⟩

/-- An index named `a` on table `t` (for map-iteration-order examples). -/
def exIdxP : Index := ⟨"a", "t", ["x"], false, false, []⟩

/-- An index named `b` on table `t` (for map-iteration-order examples). -/
def exIdxQ : Index := ⟨"b", "t", ["y"], false, false, []⟩

/-! ## String lemmas -/

theorem strData_append (a b : String) : (a ++ b).data = a.data ++ b.data := by
  cases a
  cases b
  rfl

theorem strExt {a b : String} (h : a.data = b.data) : a = b := by
  cases a
  cases b
  exact congrArg String.mk h

theorem strAppend_cancel {p a b : String} (h : p ++ a = p ++ b) : a = b := by
  have hd : p.data ++ a.data = p.data ++ b.data := by
    rw [← strData_append, ← strData_append, h]
  exact strExt (List.append_cancel_left hd)

/-- Two appends with distinguishable prefixes are distinct strings: it
suffices that the prefixes differ at a position inside both. -/
theorem strNe_of_getElem (p q a b : String) (i : Nat)
    (hp : i < p.data.length) (hq : i < q.data.length)
    (hne : p.data[i]? ≠ q.data[i]?) : p ++ a ≠ q ++ b := by
  intro he
  have hd : p.data ++ a.data = q.data ++ b.data := by
    rw [← strData_append, ← strData_append, he]
  have h2 : (p.data ++ a.data)[i]? = (q.data ++ b.data)[i]? := by rw [hd]
  rw [List.getElem?_append_left hp, List.getElem?_append_left hq] at h2
  exact hne h2

theorem noSpace_split_list {a c : List Char} :
    ∀ {b d : List Char}, a.all (fun ch => ch != ' ') = true →
      b.all (fun ch => ch != ' ') = true →
      a ++ ' ' :: c = b ++ ' ' :: d → a = b ∧ c = d := by
  induction a with
  | nil =>
      intro b d _ hb h
      cases b with
      | nil => simpa using h
      | cons x xs =>
          simp only [List.nil_append, List.cons_append, List.cons.injEq] at h
          rw [← h.1] at hb
          simp at hb
  | cons x xs ih =>
      intro b d ha hb h
      cases b with
      | nil =>
          simp only [List.cons_append, List.nil_append, List.cons.injEq] at h
          rw [h.1] at ha
          simp at ha
      | cons y ys =>
          simp only [List.cons_append, List.cons.injEq] at h
          simp only [List.all_cons, Bool.and_eq_true] at ha hb
          obtain ⟨he, hr⟩ := ih ha.2 hb.2 h.2
          exact ⟨by rw [h.1, he], hr⟩

/-- Splitting a rendered `token ++ " " ++ rest` form at the first space. -/
theorem noSpace_split (n₁ n₂ r₁ r₂ : String)
    (h1 : noSpace n₁ = true) (h2 : noSpace n₂ = true)
    (h : n₁ ++ " " ++ r₁ = n₂ ++ " " ++ r₂) : n₁ = n₂ ∧ r₁ = r₂ := by
  have hd : n₁.data ++ ' ' :: r₁.data = n₂.data ++ ' ' :: r₂.data := by
    have hx := congrArg String.data h
    rw [strData_append, strData_append, strData_append, strData_append] at hx
    simpa [List.append_assoc] using hx
  obtain ⟨he, hr⟩ := noSpace_split_list h1 h2 hd
  exact ⟨strExt he, strExt hr⟩

theorem intercalate_go_append (s : String) :
    ∀ (l : List String) (acc₁ acc₂ : String),
      String.intercalate.go (acc₁ ++ acc₂) s l
        = acc₁ ++ String.intercalate.go acc₂ s l := by
  intro l
  induction l with
  | nil => intro acc₁ acc₂; rfl
  | cons c cs ih =>
      intro acc₁ acc₂
      show String.intercalate.go (acc₁ ++ acc₂ ++ s ++ c) s cs = _
      rw [String.append_assoc acc₁ acc₂ s, String.append_assoc acc₁ (acc₂ ++ s) c,
        ih acc₁ (acc₂ ++ s ++ c)]
      rfl

theorem joinStr_single (s a : String) : joinStr s [a] = a := rfl

theorem joinStr_cons (s a : String) (l : List String) (h : l ≠ []) :
    joinStr s (a :: l) = a ++ s ++ joinStr s l := by
  cases l with
  | nil => exact absurd rfl h
  | cons b bs =>
      show String.intercalate.go (a ++ s ++ b) s bs = a ++ s ++ String.intercalate.go b s bs
      exact intercalate_go_append s bs (a ++ s) b

/-! ## Association-list lemmas -/

theorem lookupA_isSome_of_mem {α : Type} {m : List (String × α)} {e : String × α}
    (h : e ∈ m) : (lookupA m e.1).isSome := by
  induction m with
  | nil => cases h
  | cons x xs ih =>
      rcases List.mem_cons.mp h with rfl | h'
      · simp [lookupA]
      · by_cases hx : x.1 = e.1 <;> simp [lookupA, hx, ih h']

theorem mem_of_lookupA_eq_some {α : Type} {m : List (String × α)} {k : String}
    {v : α} (h : lookupA m k = some v) : (k, v) ∈ m := by
  induction m with
  | nil => simp [lookupA] at h
  | cons x xs ih =>
      obtain ⟨k', v'⟩ := x
      by_cases hx : k' = k
      · subst hx
        have h' : v' = v := by simpa [lookupA] using h
        subst h'
        exact List.mem_cons_self _ _
      · simp only [lookupA, if_neg hx] at h
        exact List.mem_cons_of_mem _ (ih h)

theorem lookupA_of_mem_nodup {α : Type} {m : List (String × α)}
    (hnd : (m.map Prod.fst).Nodup) {k : String} {v : α} (h : (k, v) ∈ m) :
    lookupA m k = some v := by
  induction m with
  | nil => cases h
  | cons x xs ih =>
      obtain ⟨k', v'⟩ := x
      simp only [List.map_cons, List.nodup_cons] at hnd
      rcases List.mem_cons.mp h with heq | h'
      · cases heq
        simp [lookupA]
      · have hk : k' ≠ k := by
          intro he
          subst he
          exact hnd.1 (List.mem_map_of_mem Prod.fst h')
        simp [lookupA, hk, ih hnd.2 h']

theorem lookupA_eq_of_perm {α : Type} {m₁ m₂ : List (String × α)}
    (hp : m₁.Perm m₂) (hnd : (m₁.map Prod.fst).Nodup) (k : String) :
    lookupA m₁ k = lookupA m₂ k := by
  have hnd₂ : (m₂.map Prod.fst).Nodup := ((hp.map Prod.fst).nodup_iff).mp hnd
  cases h1 : lookupA m₁ k with
  | some v =>
      exact (lookupA_of_mem_nodup hnd₂
        (hp.mem_iff.mp (mem_of_lookupA_eq_some h1))).symm
  | none =>
      cases h2 : lookupA m₂ k with
      | none => rfl
      | some v =>
          exfalso
          have hm : (k, v) ∈ m₁ := hp.mem_iff.mpr (mem_of_lookupA_eq_some h2)
          have hs := lookupA_isSome_of_mem hm
          simp [h1] at hs

theorem constraintNeedsDrop_self (c : Constraint) :
    constraintNeedsDrop c c = false := by
  simp [constraintNeedsDrop, fkDiffers]

theorem constraintNeedsRecreate_self (c : Constraint) :
    constraintNeedsRecreate c c = false := by
  simp [constraintNeedsRecreate, fkDiffers]

/-! ## Dependency sort correctness (towards C4) -/

theorem lookupA_insertA {α : Type} (m : List (String × α)) (k k' : String)
    (v : α) :
    lookupA (insertA m k v) k' = if k = k' then some v else lookupA m k' := by
  induction m with
  | nil => simp [insertA, lookupA]
  | cons e es ih =>
      obtain ⟨ek, ev⟩ := e
      by_cases hek : ek = k
      · subst hek
        by_cases h2 : ek = k' <;> simp [insertA, lookupA, h2]
      · by_cases h2 : ek = k'
        · subst h2
          have hkk : ¬ k = ek := fun h => hek h.symm
          simp [insertA, hek, lookupA, hkk]
        · simp [insertA, hek, lookupA, h2, ih]

theorem mem_insertA {α : Type} {m : List (String × α)} {k : String} {v : α}
    {e : String × α} (h : e ∈ insertA m k v) : e ∈ m ∨ e = (k, v) := by
  induction m with
  | nil => exact Or.inr (by simpa [insertA] using h)
  | cons x xs ih =>
      obtain ⟨xk, xv⟩ := x
      by_cases hx : xk = k
      · subst hx
        simp only [insertA, if_pos rfl] at h
        rcases List.mem_cons.mp h with rfl | h'
        · exact Or.inr rfl
        · exact Or.inl (List.mem_cons_of_mem _ h')
      · simp only [insertA, if_neg hx] at h
        rcases List.mem_cons.mp h with rfl | h'
        · exact Or.inl (List.mem_cons_self _ _)
        · rcases ih h' with h'' | h''
          · exact Or.inl (List.mem_cons_of_mem _ h'')
          · exact Or.inr h''

theorem entries_inj_of_nodup {α : Type} {m : List (String × α)}
    (hnd : (m.map Prod.fst).Nodup) {e₁ e₂ : String × α}
    (h₁ : e₁ ∈ m) (h₂ : e₂ ∈ m) (hk : e₁.1 = e₂.1) : e₁ = e₂ := by
  obtain ⟨k₁, v₁⟩ := e₁
  obtain ⟨k₂, v₂⟩ := e₂
  cases hk
  have l₁ := lookupA_of_mem_nodup hnd h₁
  have l₂ := lookupA_of_mem_nodup hnd h₂
  rw [l₁] at l₂
  cases Option.some.inj l₂
  rfl

theorem lookupA_foldl_insert_of_notmem (ts : List Table)
    (m : List (String × Table)) (k : String)
    (hk : ∀ u ∈ ts, Table.name u ≠ k) :
    lookupA (ts.foldl (fun m t => insertA m t.name t) m) k = lookupA m k := by
  induction ts generalizing m with
  | nil => rfl
  | cons t ts ih =>
      rw [List.foldl_cons, ih _ (fun u hu => hk u (List.mem_cons_of_mem _ hu)),
        lookupA_insertA, if_neg (hk t (List.mem_cons_self _ _))]

theorem buildTableMap_lookup {tables : List Table}
    (hu : ∀ t ∈ tables, ∀ u ∈ tables, Table.name u = Table.name t → u = t) :
    ∀ t ∈ tables, lookupA (buildTableMap tables) t.name = some t := by
  suffices h : ∀ (ts : List Table),
      (∀ t ∈ ts, ∀ u ∈ ts, Table.name u = Table.name t → u = t) →
      ∀ (m : List (String × Table)), ∀ t ∈ ts,
      lookupA (ts.foldl (fun m t => insertA m t.name t) m) t.name = some t by
    intro t ht
    exact h tables hu [] t ht
  intro ts
  induction ts with
  | nil => intro _ _ t ht; cases ht
  | cons v vs ih =>
      intro hu2 m t ht
      rw [List.foldl_cons]
      rcases List.mem_cons.mp ht with rfl | hts
      · by_cases hin : t ∈ vs
        · exact ih (fun a ha b hb => hu2 a (List.mem_cons_of_mem _ ha) b
            (List.mem_cons_of_mem _ hb)) _ t hin
        · have hk : ∀ u ∈ vs, Table.name u ≠ t.name := by
            intro u huv he
            have hut : u = t := hu2 t (List.mem_cons_self _ _) u
              (List.mem_cons_of_mem _ huv) he
            exact hin (hut ▸ huv)
          rw [lookupA_foldl_insert_of_notmem vs _ _ hk, lookupA_insertA,
            if_pos rfl]
      · exact ih (fun a ha b hb => hu2 a (List.mem_cons_of_mem _ ha) b
          (List.mem_cons_of_mem _ hb)) _ t hts

theorem buildTableMap_consistent (tables : List Table) :
    ∀ k v, lookupA (buildTableMap tables) k = some v → Table.name v = k := by
  suffices h : ∀ (ts : List Table) (m : List (String × Table)),
      (∀ e ∈ m, Table.name (Prod.snd e) = e.1) →
      ∀ e ∈ ts.foldl (fun m t => insertA m t.name t) m,
        Table.name (Prod.snd e) = e.1 by
    intro k v hl
    exact h tables [] (by intro e he; cases he) (k, v)
      (mem_of_lookupA_eq_some hl)
  intro ts
  induction ts with
  | nil => intro m hm e he; exact hm e he
  | cons t ts ih =>
      intro m hm e he
      rw [List.foldl_cons] at he
      refine ih _ ?_ e he
      intro f hf
      rcases mem_insertA hf with h' | h'
      · exact hm f h'
      · subst h'
        rfl

theorem tableDeps_lookup {tm : List (String × Table)}
    (hcons : ∀ k v, lookupA tm k = some v → Table.name v = k)
    {t p : Table} (hp : p ∈ tableDeps tm t) : lookupA tm p.name = some p := by
  unfold tableDeps at hp
  rcases List.mem_append.mp hp with h | h
  · by_cases hpt : t.parentTable ≠ ""
    · rw [if_pos hpt] at h
      cases hl : lookupA tm t.parentTable with
      | none => rw [hl] at h; cases h
      | some q =>
          rw [hl] at h
          have hpq := List.mem_singleton.mp h
          subst hpq
          rw [hcons _ _ hl]
          exact hl
    · rw [if_neg hpt] at h
      cases h
  · obtain ⟨e, he, hf⟩ := List.mem_filterMap.mp h
    split at hf
    · rw [hcons _ _ hf]
      exact hf
    · cases hf

theorem append_singleton_cases {α : Type} {res : List α} {t x : α}
    {pre post : List α} (h : res ++ [t] = pre ++ x :: post) :
    (pre = res ∧ x = t ∧ post = []) ∨ ∃ post₀, res = pre ++ x :: post₀ := by
  induction pre generalizing res with
  | nil =>
      cases res with
      | nil =>
          simp only [List.nil_append] at h
          injection h with h1 h2
          exact Or.inl ⟨rfl, h1.symm, h2.symm⟩
      | cons r rs =>
          simp only [List.cons_append, List.nil_append] at h
          injection h with h1 h2
          exact Or.inr ⟨rs, by simp [h1]⟩
  | cons p₀ ps ih =>
      cases res with
      | nil =>
          simp only [List.nil_append, List.cons_append] at h
          injection h with h1 h2
          simp at h2
      | cons r rs =>
          simp only [List.cons_append] at h
          injection h with h1 h2
          rcases @ih rs h2 with ⟨h3, h4, h5⟩ | ⟨post₀, h3⟩
          · exact Or.inl ⟨by rw [h1, h3], h4, h5⟩
          · exact Or.inr ⟨post₀, by simp [h1, h3]⟩

theorem forwardClosed_nil (tm : List (String × Table)) :
    ForwardClosed tm [] := by
  intro pre t post h
  exact absurd h (by simp)

theorem forwardClosed_append {tm : List (String × Table)} {res : List Table}
    {t : Table} (hfc : ForwardClosed tm res)
    (hdeps : ∀ p ∈ tableDeps tm t, p ∈ res) :
    ForwardClosed tm (res ++ [t]) := by
  intro pre x post heq p hp
  rcases append_singleton_cases heq with ⟨h1, h2, h3⟩ | ⟨post₀, h1⟩
  · rw [h1]
    exact hdeps p (h2 ▸ hp)
  · exact hfc pre x post₀ h1 p hp

theorem processTable_succ (tm : List (String × Table)) (fuel : Nat)
    (st : SortState) (t : Table) :
    processTable tm (fuel + 1) st t
      = if t.name ∈ st.processed then some st
        else match (tableDeps tm t).foldlM (processTable tm fuel) st with
          | none => none
          | some st' =>
              some ⟨st'.result ++ [t], st'.processed ++ [t.name]⟩ := rfl

theorem foldlM_processTable {tm : List (String × Table)} (fuel : Nat)
    (IH : ∀ (st : SortState) (t : Table) (st' : SortState),
      processTable tm fuel st t = some st' →
      lookupA tm t.name = some t →
      st.processed = st.result.map Table.name →
      ForwardClosed tm st.result →
      (∀ q ∈ st.result, lookupA tm q.name = some q) →
      (∃ ext, st'.result = st.result ++ ext)
        ∧ st'.processed = st'.result.map Table.name
        ∧ ForwardClosed tm st'.result
        ∧ (∀ q ∈ st'.result, lookupA tm q.name = some q)
        ∧ t.name ∈ st'.processed) :
    ∀ (deps : List Table) (st st'' : SortState),
      deps.foldlM (processTable tm fuel) st = some st'' →
      (∀ p ∈ deps, lookupA tm p.name = some p) →
      st.processed = st.result.map Table.name →
      ForwardClosed tm st.result →
      (∀ q ∈ st.result, lookupA tm q.name = some q) →
      (∃ ext, st''.result = st.result ++ ext)
        ∧ st''.processed = st''.result.map Table.name
        ∧ ForwardClosed tm st''.result
        ∧ (∀ q ∈ st''.result, lookupA tm q.name = some q)
        ∧ ∀ p ∈ deps, Table.name p ∈ st''.processed := by
  intro deps
  induction deps with
  | nil =>
      intro st st'' h _ hpn hfc hmem
      cases Option.some.inj h
      exact ⟨⟨[], by simp⟩, hpn, hfc, hmem, by simp⟩
  | cons p ps ihd =>
      intro st st'' h hdl hpn hfc hmem
      rw [List.foldlM_cons] at h
      cases hstep : processTable tm fuel st p with
      | none => rw [hstep] at h; simp at h
      | some st₁ =>
          rw [hstep] at h
          obtain ⟨⟨e₁, he₁⟩, hpn₁, hfc₁, hmem₁, hmark₁⟩ :=
            IH st p st₁ hstep (hdl p (List.mem_cons_self _ _)) hpn hfc hmem
          obtain ⟨⟨e₂, he₂⟩, hpn₂, hfc₂, hmem₂, hmark₂⟩ :=
            ihd st₁ st'' h (fun q hq => hdl q (List.mem_cons_of_mem _ hq))
              hpn₁ hfc₁ hmem₁
          refine ⟨⟨e₁ ++ e₂, by rw [he₂, he₁, List.append_assoc]⟩,
            hpn₂, hfc₂, hmem₂, ?_⟩
          intro q hq
          rcases List.mem_cons.mp hq with rfl | hq'
          · rw [hpn₂, he₂, List.map_append]
            rw [hpn₁] at hmark₁
            exact List.mem_append_left _ hmark₁
          · exact hmark₂ q hq'

theorem processTable_sound {tm : List (String × Table)}
    (hcons : ∀ k v, lookupA tm k = some v → Table.name v = k) :
    ∀ (fuel : Nat) (st : SortState) (t : Table) (st' : SortState),
      processTable tm fuel st t = some st' →
      lookupA tm t.name = some t →
      st.processed = st.result.map Table.name →
      ForwardClosed tm st.result →
      (∀ q ∈ st.result, lookupA tm q.name = some q) →
      (∃ ext, st'.result = st.result ++ ext)
        ∧ st'.processed = st'.result.map Table.name
        ∧ ForwardClosed tm st'.result
        ∧ (∀ q ∈ st'.result, lookupA tm q.name = some q)
        ∧ t.name ∈ st'.processed := by
  intro fuel
  induction fuel with
  | zero => intro st t st' h _ _ _ _; cases h
  | succ fuel ih =>
      intro st t st' h hmt hpn hfc hmem
      rw [processTable_succ] at h
      by_cases hp : t.name ∈ st.processed
      · rw [if_pos hp] at h
        cases Option.some.inj h
        exact ⟨⟨[], by simp⟩, hpn, hfc, hmem, hp⟩
      · rw [if_neg hp] at h
        cases hfold : (tableDeps tm t).foldlM (processTable tm fuel) st with
        | none => rw [hfold] at h; simp at h
        | some st'' =>
            rw [hfold] at h
            obtain ⟨⟨ext, hext⟩, hpn'', hfc'', hmem'', hmarks⟩ :=
              foldlM_processTable fuel ih (tableDeps tm t) st st'' hfold
                (fun p hp' => tableDeps_lookup hcons hp') hpn hfc hmem
            have heq : (⟨st''.result ++ [t], st''.processed ++ [t.name]⟩
                : SortState) = st' := Option.some.inj h
            cases heq
            refine ⟨⟨ext ++ [t], by rw [hext, List.append_assoc]⟩,
              ?_, ?_, ?_, ?_⟩
            · show st''.processed ++ [t.name]
                = (st''.result ++ [t]).map Table.name
              rw [hpn'', List.map_append]
              rfl
            · apply forwardClosed_append hfc''
              intro p hp'
              have hq := hmarks p hp'
              rw [hpn''] at hq
              obtain ⟨q, hqm, hqn⟩ := List.mem_map.mp hq
              have h1 := hmem'' q hqm
              have h2 := tableDeps_lookup hcons hp'
              rw [hqn] at h1
              cases Option.some.inj (h1.symm.trans h2)
              exact hqm
            · intro q hq
              rcases List.mem_append.mp hq with hq' | hq'
              · exact hmem'' q hq'
              · rw [List.mem_singleton.mp hq']
                exact hmt
            · show t.name ∈ st''.processed ++ [t.name]
              simp

theorem sortTables_sound {tables : List Table}
    (hu : ∀ t ∈ tables, ∀ u ∈ tables, Table.name u = Table.name t → u = t)
    {res : List Table} (h : sortTablesByDependency tables = some res) :
    ForwardClosed (buildTableMap tables) res
      ∧ (∀ q ∈ res, lookupA (buildTableMap tables) q.name = some q)
      ∧ (∀ t ∈ tables, t ∈ res) := by
  have hcons := buildTableMap_consistent tables
  simp only [sortTablesByDependency] at h
  split at h
  · cases h
  · rename_i stf hfold
    have hres : stf.result = res := Option.some.inj h
    obtain ⟨-, hpn, hfc, hmem, hmarks⟩ :=
      @foldlM_processTable (buildTableMap tables) (tables.length + 1)
        (processTable_sound hcons (tables.length + 1))
        tables ⟨[], []⟩ stf hfold
        (fun t ht => buildTableMap_lookup hu t ht)
        rfl (forwardClosed_nil _) (by intro q hq; cases hq)
    subst hres
    refine ⟨hfc, hmem, ?_⟩
    intro t ht
    have h1 := hmarks t ht
    rw [hpn] at h1
    obtain ⟨q, hqm, hqn⟩ := List.mem_map.mp h1
    have h2 := hmem q hqm
    have h3 := buildTableMap_lookup hu t ht
    rw [hqn] at h2
    cases Option.some.inj (h2.symm.trans h3)
    exact hqm

theorem newTables_unique {c d : Schema}
    (hkeys : ∀ e ∈ d.tables, Table.name (Prod.snd e) = e.1)
    (hnd : (d.tables.map Prod.fst).Nodup) :
    ∀ t ∈ d.tables.filterMap (fun e =>
        if containsKeyA c.tables e.1 then none else some e.2),
      ∀ u ∈ d.tables.filterMap (fun e =>
        if containsKeyA c.tables e.1 then none else some e.2),
      Table.name u = Table.name t → u = t := by
  intro t ht u hu hn
  obtain ⟨et, het, hft⟩ := List.mem_filterMap.mp ht
  obtain ⟨eu, heu, hfu⟩ := List.mem_filterMap.mp hu
  have ht2 : et.2 = t := by
    split at hft
    · cases hft
    · exact Option.some.inj hft
  have hu2 : eu.2 = u := by
    split at hfu
    · cases hfu
    · exact Option.some.inj hfu
  have hkt := hkeys et het
  have hku := hkeys eu heu
  rw [ht2] at hkt
  rw [hu2] at hku
  have heq : eu = et :=
    entries_inj_of_nodup hnd heu het (by rw [← hku, hn]; exact hkt)
  rw [← hu2, heq, ht2]

theorem sorted_order {tables : List Table}
    (hu : ∀ t ∈ tables, ∀ u ∈ tables, Table.name u = Table.name t → u = t)
    {res : List Table} (h : sortTablesByDependency tables = some res)
    {P T : Table} (hP : P ∈ tables) (hT : T ∈ tables)
    (hPname : Table.name P ≠ "")
    (hdep : T.parentTable = Table.name P ∨
      ∃ e ∈ T.constraints, (Prod.snd e : Constraint).type = "FOREIGN KEY"
        ∧ (Prod.snd e : Constraint).referenceTable = Table.name P) :
    ∃ l₁ l₂ l₃, res = l₁ ++ P :: l₂ ++ T :: l₃ := by
  obtain ⟨hfc, hmem, hall⟩ := sortTables_sound hu h
  obtain ⟨pre, post, hts⟩ := List.append_of_mem (hall T hT)
  have hPl : lookupA (buildTableMap tables) (Table.name P) = some P :=
    buildTableMap_lookup hu P hP
  have hPdep : P ∈ tableDeps (buildTableMap tables) T := by
    unfold tableDeps
    rcases hdep with hpar | ⟨e, he, hty, href⟩
    · apply List.mem_append_left
      rw [hpar, if_pos hPname, hPl]
      exact List.mem_singleton_self P
    · apply List.mem_append_right
      refine List.mem_filterMap.mpr ⟨e, he, ?_⟩
      rw [if_pos hty, href]
      exact hPl
  have hPpre : P ∈ pre := hfc pre T post hts P hPdep
  obtain ⟨l₁, l₂, hpre⟩ := List.append_of_mem hPpre
  exact ⟨l₁, l₂, post, by rw [hts, hpre]⟩

/-! ## Plan decomposition and statement shapes -/

theorem generateDDLs_eq {c d : Schema} {l : List String}
    (h : GenerateDDLs c d = some l) :
    ∃ cts, generateCreateTableDDLs c d = some cts ∧
      l = generateDropIndexDDLs c d ++ generateDropTableDDLs c d
        ++ generateAlterTableDDLs c d ++ cts ++ generateCreateIndexDDLs c d := by
  unfold GenerateDDLs at h
  cases hct : generateCreateTableDDLs c d with
  | none => rw [hct] at h; cases h
  | some cts =>
      rw [hct] at h
      exact ⟨cts, rfl, (Option.some.inj h).symm⟩

theorem mem_createTableDDLs {c d : Schema} {cts : List String}
    (h : generateCreateTableDDLs c d = some cts) {s : String} (hs : s ∈ cts) :
    ∃ t, s = generateCreateTable t := by
  obtain ⟨ts, -, hmap⟩ : ∃ ts, sortTablesByDependency (d.tables.filterMap
      (fun e => if containsKeyA c.tables e.1 then none else some e.2)) = some ts
      ∧ List.map generateCreateTable ts = cts := by
    simpa [generateCreateTableDDLs, Option.map_eq_some'] using h
  rw [← hmap] at hs
  obtain ⟨t, -, ht⟩ := List.mem_map.mp hs
  exact ⟨t, ht.symm⟩

theorem generateCreateTable_shape (t : Table) :
    ∃ r, generateCreateTable t = "CREATE TABLE " ++ r := by
  unfold generateCreateTable
  simp only [String.append_assoc]
  exact ⟨_, rfl⟩

theorem mem_alterTableDDLs {c d : Schema} {s : String}
    (h : s ∈ generateAlterTableDDLs c d) :
    ∃ e ct, e ∈ d.tables ∧ lookupA c.tables e.1 = some ct
      ∧ s ∈ generateAlterTable ct e.2 := by
  unfold generateAlterTableDDLs at h
  rw [List.mem_flatMap] at h
  obtain ⟨e, he, hs⟩ := h
  cases hct : lookupA c.tables e.1 with
  | none => rw [hct] at hs; cases hs
  | some ct => rw [hct] at hs; exact ⟨e, ct, he, hct, hs⟩

theorem mem_dropIndexDDLs {c d : Schema} {s : String}
    (h : s ∈ generateDropIndexDDLs c d) :
    ∃ e, e ∈ c.indexes ∧ s = "DROP INDEX " ++ e.1
      ∧ (!containsKeyA d.indexes e.1
          || !containsKeyA d.tables e.2.tableName) = true := by
  unfold generateDropIndexDDLs at h
  rw [List.mem_filterMap] at h
  obtain ⟨e, he, hf⟩ := h
  by_cases hc : (!containsKeyA d.indexes e.1
      || !containsKeyA d.tables e.2.tableName) = true
  · rw [if_pos hc] at hf
    exact ⟨e, he, (Option.some.inj hf).symm, hc⟩
  · rw [if_neg hc] at hf
    cases hf

theorem mem_dropTableDDLs {c d : Schema} {s : String}
    (h : s ∈ generateDropTableDDLs c d) :
    ∃ e, e ∈ c.tables ∧ s = "DROP TABLE " ++ e.1 := by
  unfold generateDropTableDDLs at h
  rw [List.mem_filterMap] at h
  obtain ⟨e, he, hf⟩ := h
  by_cases hc : containsKeyA d.tables e.1 = true
  · rw [if_pos hc] at hf
    cases hf
  · rw [if_neg hc] at hf
    exact ⟨e, he, (Option.some.inj hf).symm⟩

theorem mem_createIndexDDLs {c d : Schema} {s : String}
    (h : s ∈ generateCreateIndexDDLs c d) :
    ∃ e, e ∈ d.indexes ∧ containsKeyA c.indexes e.1 = false
      ∧ s = generateCreateIndex e.2 := by
  unfold generateCreateIndexDDLs at h
  rw [List.mem_filterMap] at h
  obtain ⟨e, he, hf⟩ := h
  by_cases hc : containsKeyA c.indexes e.1 = true
  · rw [if_pos hc] at hf
    cases hf
  · rw [if_neg hc] at hf
    exact ⟨e, he, by simpa using hc, (Option.some.inj hf).symm⟩

theorem generateCreateIndex_shape (i : Index) :
    ∃ r, generateCreateIndex i =
      (if i.unique then "CREATE UNIQUE INDEX " else "CREATE INDEX ")
        ++ (i.name ++ (" " ++ r)) := by
  unfold generateCreateIndex
  rw [show ([if i.unique then "CREATE UNIQUE INDEX" else "CREATE INDEX"]
        ++ [i.name, "ON", i.tableName, "(" ++ joinStr ", " i.columns ++ ")"]
        ++ (if i.storing ≠ [] then
            ["STORING (" ++ joinStr ", " i.storing ++ ")"] else []))
      = (if i.unique then "CREATE UNIQUE INDEX" else "CREATE INDEX")
        :: i.name :: (("ON" : String) :: i.tableName
        :: ("(" ++ joinStr ", " i.columns ++ ")")
        :: (if i.storing ≠ [] then
            ["STORING (" ++ joinStr ", " i.storing ++ ")"] else []))
      from by simp]
  rw [joinStr_cons " " _ _ (List.cons_ne_nil _ _),
    joinStr_cons " " _ _ (List.cons_ne_nil _ _)]
  rw [show ((if i.unique then ("CREATE UNIQUE INDEX" : String) else "CREATE INDEX")
        ++ " ")
      = (if i.unique then ("CREATE UNIQUE INDEX " : String) else "CREATE INDEX ")
      from by cases i.unique <;> rfl]
  refine ⟨joinStr " " (("ON" : String) :: i.tableName
      :: ("(" ++ joinStr ", " i.columns ++ ")")
      :: (if i.storing ≠ [] then
          ["STORING (" ++ joinStr ", " i.storing ++ ")"] else [])), ?_⟩
  simp [String.append_assoc]

theorem generateCreateIndex_inj_name {i j : Index}
    (hi : noSpace i.name = true) (hj : noSpace j.name = true)
    (h : generateCreateIndex i = generateCreateIndex j) : i.name = j.name := by
  obtain ⟨ri, hri⟩ := generateCreateIndex_shape i
  obtain ⟨rj, hrj⟩ := generateCreateIndex_shape j
  rw [hri, hrj] at h
  cases hui : i.unique <;> cases huj : j.unique <;> rw [hui, huj] at h
  · have h2 := strAppend_cancel h
    rw [← String.append_assoc, ← String.append_assoc] at h2
    exact (noSpace_split _ _ _ _ hi hj h2).1
  · exact absurd h (strNe_of_getElem _ _ _ _ 7 (by decide) (by decide) (by decide))
  · exact absurd h (strNe_of_getElem _ _ _ _ 7 (by decide) (by decide) (by decide))
  · have h2 := strAppend_cancel h
    rw [← String.append_assoc, ← String.append_assoc] at h2
    exact (noSpace_split _ _ _ _ hi hj h2).1

theorem mem_generateAlterTable_cases {ct dt : Table} {s : String}
    (h : s ∈ generateAlterTable ct dt) :
    (∃ r, s = "ALTER TABLE " ++ (dt.name ++ (" ADD COLUMN " ++ r)))
    ∨ (∃ e, e ∈ ct.constraints
        ∧ s = "ALTER TABLE " ++ (dt.name ++ (" DROP CONSTRAINT " ++ e.1)))
    ∨ (∃ e, e ∈ ct.columns
        ∧ s = "ALTER TABLE " ++ (dt.name ++ (" DROP COLUMN " ++ e.1)))
    ∨ (∃ e cc, e ∈ dt.columns ∧ lookupA ct.columns e.1 = some cc
        ∧ (cc.type != e.2.type) = true
        ∧ s = "ALTER TABLE " ++ (dt.name ++ (" ALTER COLUMN "
            ++ (e.1 ++ (" " ++ (e.2.type
              ++ (if e.2.notNull then " NOT NULL" else "")))))))
    ∨ (∃ r, s = "ALTER TABLE " ++ (dt.name ++ (" ADD CONSTRAINT " ++ r))) := by
  unfold generateAlterTable at h
  simp only [List.mem_append] at h
  rcases h with ((((h | h) | h) | h) | h)
  · left
    rw [List.mem_filterMap] at h
    obtain ⟨e, he, hf⟩ := h
    split at hf
    · cases hf
    · refine ⟨e.2.name ++ " " ++ e.2.type
        ++ (if e.2.notNull then " NOT NULL" else "")
        ++ (if e.2.default ≠ "" then " DEFAULT " ++ e.2.default else ""), ?_⟩
      rw [← Option.some.inj hf]
      unfold addColumnDDL
      simp [String.append_assoc]
  · right; left
    rw [List.mem_filterMap] at h
    obtain ⟨e, he, hf⟩ := h
    split at hf
    · refine ⟨e, he, ?_⟩
      rw [← Option.some.inj hf]
      simp [String.append_assoc]
    · cases hf
  · right; right; left
    rw [List.mem_filterMap] at h
    obtain ⟨e, he, hf⟩ := h
    split at hf
    · cases hf
    · refine ⟨e, he, ?_⟩
      rw [← Option.some.inj hf]
      simp [String.append_assoc]
  · right; right; right; left
    rw [List.mem_filterMap] at h
    obtain ⟨e, he, hf⟩ := h
    split at hf
    case h_2 => cases hf
    case h_1 cc hl =>
      split at hf
      · refine ⟨e, cc, he, hl, by assumption, ?_⟩
        rw [← Option.some.inj hf]
        simp [String.append_assoc]
      · cases hf
  · right; right; right; right
    rw [List.mem_filterMap] at h
    obtain ⟨e, he, hf⟩ := h
    have hm : addConstraintDDL dt.name e.1 e.2 = some s := by
      split at hf
      · split at hf
        · exact hf
        · cases hf
      · exact hf
    unfold addConstraintDDL at hm
    split at hm
    · refine ⟨e.1 ++ " CHECK " ++ e.2.expression, ?_⟩
      rw [← Option.some.inj hm]
      simp [String.append_assoc]
    · split at hm
      · refine ⟨e.1 ++ " FOREIGN KEY (" ++ joinStr ", " e.2.columns
          ++ ") REFERENCES " ++ e.2.referenceTable
          ++ " (" ++ joinStr ", " e.2.referenceColumns ++ ")"
          ++ (if e.2.onDelete ≠ "" then " " ++ e.2.onDelete else ""), ?_⟩
        rw [← Option.some.inj hm]
        simp [String.append_assoc]
      · cases hm

theorem mem_generateAlterTable_shape {ct dt : Table} {s : String}
    (h : s ∈ generateAlterTable ct dt) :
    ∃ r, s = "ALTER TABLE " ++ r := by
  rcases mem_generateAlterTable_cases h with
    ⟨r, hr⟩ | ⟨e, -, hr⟩ | ⟨e, -, hr⟩ | ⟨e, cc, -, -, -, hr⟩ | ⟨r, hr⟩ <;>
    exact ⟨_, hr⟩

/-! ## C2 — drop safety of the executed batch -/

/-- C2 (counterexample): the claim that with `enable_drop = false` the
executed batch contains no DROP CONSTRAINT statement is false. Diffing a
table that loses its CHECK constraint against itself produces exactly
`ALTER TABLE t DROP CONSTRAINT c`, and `RunDDLs` keeps that statement in
`validDDLs` because its filter only looks for the substrings
`DROP TABLE`, `DROP INDEX`, `DROP COLUMN`. -/
theorem c2_counterexample :
    GenerateDDLs ⟨[("t", exConTable)], []⟩ ⟨[("t", exPlainTable)], []⟩
      = some ["ALTER TABLE t DROP CONSTRAINT c"]
    ∧ runValidDDLs ["ALTER TABLE t DROP CONSTRAINT c"] false
      = ["ALTER TABLE t DROP CONSTRAINT c"]
    ∧ goContains "ALTER TABLE t DROP CONSTRAINT c" "DROP CONSTRAINT" = true := by
  refine ⟨by decide, by decide, by decide⟩

/-- C2 (amended): with `enable_drop = false` the executed batch
(`RunDDLs`'s `validDDLs`) contains no statement mentioning `DROP TABLE`,
`DROP INDEX`, or `DROP COLUMN`; statements so filtered are still printed,
marked `-- Skipped: `. `DROP CONSTRAINT` statements are not filtered and
are executed. -/
theorem c2_theorem (ddls : List String) (d : String) :
    (d ∈ runValidDDLs ddls false →
      goContains d "DROP TABLE" = false ∧ goContains d "DROP INDEX" = false
        ∧ goContains d "DROP COLUMN" = false)
    ∧ (d ∈ ddls → ddlIsSkipped false d = true →
        d ∉ runValidDDLs ddls false
          ∧ ("-- Skipped: " ++ d) ∈ runDDLsOutput ddls false) := by
  constructor
  · intro hm
    have h := (List.mem_filter.mp hm).2
    simp only [ddlIsSkipped, Bool.not_false, Bool.true_and, Bool.not_eq_true',
      Bool.or_eq_false_iff] at h
    exact ⟨h.1.1, h.1.2, h.2⟩
  · intro hm hskip
    refine ⟨fun hmem => ?_, ?_⟩
    · have h := (List.mem_filter.mp hmem).2
      rw [hskip] at h
      simp at h
    · exact List.mem_cons_of_mem _
        (List.mem_map.mpr ⟨d, hm, by rw [if_pos hskip]⟩)

/-- Witness for `c2_theorem` at a concrete batch. -/
theorem c2_witness :
    (goContains "ALTER TABLE t ADD COLUMN x INT64" "DROP TABLE" = false
      ∧ goContains "ALTER TABLE t ADD COLUMN x INT64" "DROP INDEX" = false
      ∧ goContains "ALTER TABLE t ADD COLUMN x INT64" "DROP COLUMN" = false)
    ∧ ("DROP TABLE y"
        ∉ runValidDDLs ["ALTER TABLE t ADD COLUMN x INT64", "DROP TABLE y"] false
      ∧ "-- Skipped: DROP TABLE y"
        ∈ runDDLsOutput ["ALTER TABLE t ADD COLUMN x INT64", "DROP TABLE y"] false) :=
  ⟨( c2_theorem ["ALTER TABLE t ADD COLUMN x INT64", "DROP TABLE y"]
      "ALTER TABLE t ADD COLUMN x INT64").1 (by decide),
   ( c2_theorem ["ALTER TABLE t ADD COLUMN x INT64", "DROP TABLE y"]
      "DROP TABLE y").2 (by decide) (by decide)⟩

/-! ## C9 — table-level changes -/

/-- C9 (counterexample): the claim that the differ emits an
UnsupportedChange warning op is false: for two versions of table `t`
differing in primary key, parent table, table-level ON DELETE and row
deletion policy, the generated plan is empty — no statement and no warning
of any kind (the API has no warning channel at all). -/
theorem c9_counterexample :
    GenerateDDLs ⟨[("t", exPlainTable)], []⟩ ⟨[("t", exTableLevelChanged)], []⟩
      = some []
    ∧ exPlainTable.primaryKey ≠ exTableLevelChanged.primaryKey
    ∧ exPlainTable.parentTable ≠ exTableLevelChanged.parentTable
    ∧ exPlainTable.onDelete ≠ exTableLevelChanged.onDelete
    ∧ exPlainTable.rowDeletionPolicyColumn
        ≠ exTableLevelChanged.rowDeletionPolicyColumn := by
  refine ⟨by decide, by decide, by decide, by decide, by decide⟩

/-- C9 (amended): for a table present in both schemas whose
`primary_key`, `parent_table`, table-level `on_delete`, or
`row_deletion_policy` differ while columns and constraints agree (as
name-keyed mappings), the differ emits no statement at all for that table
— the change is silently ignored; no warning op exists in the code. -/
theorem c9_theorem (ct dt : Table)
    (hndc : (ct.columns.map Prod.fst).Nodup)
    (hndk : (ct.constraints.map Prod.fst).Nodup)
    (hcols : ct.columns.Perm dt.columns)
    (hcons : ct.constraints.Perm dt.constraints) :
    generateAlterTable ct dt = [] := by
  have hndc' : (dt.columns.map Prod.fst).Nodup :=
    ((hcols.map Prod.fst).nodup_iff).mp hndc
  have hndk' : (dt.constraints.map Prod.fst).Nodup :=
    ((hcons.map Prod.fst).nodup_iff).mp hndk
  have hlc : ∀ k, lookupA ct.columns k = lookupA dt.columns k :=
    lookupA_eq_of_perm hcols hndc
  have hlk : ∀ k, lookupA ct.constraints k = lookupA dt.constraints k :=
    lookupA_eq_of_perm hcons hndk
  unfold generateAlterTable
  rw [List.append_eq_nil, List.append_eq_nil, List.append_eq_nil,
    List.append_eq_nil]
  refine ⟨⟨⟨⟨?_, ?_⟩, ?_⟩, ?_⟩, ?_⟩ <;> rw [List.filterMap_eq_nil_iff]
  · intro e he
    have : (lookupA ct.columns e.1).isSome := by
      rw [hlc e.1]
      exact lookupA_isSome_of_mem he
    simp [containsKeyA, this]
  · intro e he
    have hl : lookupA dt.constraints e.1 = some e.2 := by
      rw [← hlk e.1]
      exact lookupA_of_mem_nodup hndk he
    simp [hl, constraintNeedsDrop_self]
  · intro e he
    have : (lookupA dt.columns e.1).isSome := by
      rw [← hlc e.1]
      exact lookupA_isSome_of_mem he
    simp [containsKeyA, this]
  · intro e he
    have hl : lookupA ct.columns e.1 = some e.2 := by
      rw [hlc e.1]
      exact lookupA_of_mem_nodup hndc' he
    simp [hl]
  · intro e he
    have hl : lookupA ct.constraints e.1 = some e.2 := by
      rw [hlk e.1]
      exact lookupA_of_mem_nodup hndk' he
    simp [hl, constraintNeedsRecreate_self]

/-- Witness for `c9_theorem`: the tables of `c9_counterexample`. -/
theorem c9_witness : generateAlterTable exPlainTable exTableLevelChanged = [] :=
  c9_theorem exPlainTable exTableLevelChanged (by decide) (by decide)
    (by decide) (by decide)

/-! ## C5 — indexes present in both schemas -/

theorem keyword_split {n₁ n₂ k₁ k₂ r₁ r₂ : String}
    (h1 : noSpace n₁ = true) (h2 : noSpace n₂ = true)
    (e₁ : ∃ t₁, k₁ = " " ++ t₁) (e₂ : ∃ t₂, k₂ = " " ++ t₂)
    (h : n₁ ++ (k₁ ++ r₁) = n₂ ++ (k₂ ++ r₂)) :
    n₁ = n₂ ∧ k₁ ++ r₁ = k₂ ++ r₂ := by
  obtain ⟨t₁, rfl⟩ := e₁
  obtain ⟨t₂, rfl⟩ := e₂
  have h' : n₁ ++ " " ++ (t₁ ++ r₁) = n₂ ++ " " ++ (t₂ ++ r₂) := by
    rw [String.append_assoc n₁, String.append_assoc n₂]
    simpa [String.append_assoc] using h
  obtain ⟨hn, hr⟩ := noSpace_split _ _ _ _ h1 h2 h'
  refine ⟨hn, ?_⟩
  rw [String.append_assoc, String.append_assoc, hr]

/-- C5 (counterexample): the index `idx` exists in both schemas with
structurally different records (key columns, uniqueness, null filtering and
storing all differ), yet the generated plan is empty: no DROP INDEX and no
CREATE INDEX is emitted. -/
theorem c5_counterexample :
    GenerateDDLs ⟨[("t", exPlainTable)], [("idx", exIdxA)]⟩
        ⟨[("t", exPlainTable)], [("idx", exIdxB)]⟩ = some []
    ∧ exIdxA ≠ exIdxB := by
  refine ⟨by decide, by decide⟩

/-- C5 (amended): for an index name present in both schemas whose current
record's table also survives into the desired schema, the plan contains no
DROP INDEX for that name and no CREATE INDEX with the desired definition:
differing index definitions are silently ignored, not dropped and
recreated. -/
theorem c5_theorem {c d : Schema} {l : List String} {name : String}
    {idx idx' : Index}
    (hgen : GenerateDDLs c d = some l)
    (hc : lookupA c.indexes name = some idx)
    (hd : lookupA d.indexes name = some idx')
    (htbl : containsKeyA d.tables idx.tableName = true)
    (hndc : (c.indexes.map Prod.fst).Nodup)
    (hkd : ∀ e ∈ d.indexes, e.2.name = e.1 ∧ noSpace e.1 = true) :
    ("DROP INDEX " ++ name) ∉ l ∧ generateCreateIndex idx' ∉ l := by
  obtain ⟨cts, hcts, hl⟩ := generateDDLs_eq hgen
  subst hl
  constructor
  · intro hmem
    simp only [List.mem_append] at hmem
    rcases hmem with (((hmem | hmem) | hmem) | hmem) | hmem
    · obtain ⟨e, he, heq, hcond⟩ := mem_dropIndexDDLs hmem
      have hne : name = e.1 := strAppend_cancel heq
      have hle : lookupA c.indexes e.1 = some e.2 :=
        lookupA_of_mem_nodup hndc (by simpa using he)
      rw [← hne, hc] at hle
      have hidx : idx = e.2 := Option.some.inj hle
      rw [← hne, ← hidx] at hcond
      rw [show containsKeyA d.indexes name = true by
          simp [containsKeyA, hd], htbl] at hcond
      simp at hcond
    · obtain ⟨e, -, heq⟩ := mem_dropTableDDLs hmem
      exact strNe_of_getElem _ _ _ _ 5 (by decide) (by decide) (by decide) heq
    · obtain ⟨e, ct, -, -, hs⟩ := mem_alterTableDDLs hmem
      obtain ⟨r, hr⟩ := mem_generateAlterTable_shape hs
      exact strNe_of_getElem _ _ _ _ 0 (by decide) (by decide) (by decide) hr
    · obtain ⟨t, ht⟩ := mem_createTableDDLs hcts hmem
      obtain ⟨r, hr⟩ := generateCreateTable_shape t
      rw [hr] at ht
      exact strNe_of_getElem _ _ _ _ 0 (by decide) (by decide) (by decide) ht
    · obtain ⟨e, -, -, heq⟩ := mem_createIndexDDLs hmem
      obtain ⟨r, hr⟩ := generateCreateIndex_shape e.2
      rw [hr] at heq
      cases hu : e.2.unique <;> rw [hu] at heq <;>
        exact strNe_of_getElem _ _ _ _ 0 (by decide) (by decide) (by decide) heq
  · intro hmem
    simp only [List.mem_append] at hmem
    obtain ⟨ri, hri⟩ := generateCreateIndex_shape idx'
    rcases hmem with (((hmem | hmem) | hmem) | hmem) | hmem
    · obtain ⟨e, -, heq, -⟩ := mem_dropIndexDDLs hmem
      rw [hri] at heq
      cases hu : idx'.unique <;> rw [hu] at heq <;>
        exact strNe_of_getElem _ _ _ _ 0 (by decide) (by decide) (by decide) heq
    · obtain ⟨e, -, heq⟩ := mem_dropTableDDLs hmem
      rw [hri] at heq
      cases hu : idx'.unique <;> rw [hu] at heq <;>
        exact strNe_of_getElem _ _ _ _ 0 (by decide) (by decide) (by decide) heq
    · obtain ⟨e, ct, -, -, hs⟩ := mem_alterTableDDLs hmem
      obtain ⟨r, hr⟩ := mem_generateAlterTable_shape hs
      rw [hri] at hr
      cases hu : idx'.unique <;> rw [hu] at hr <;>
        exact strNe_of_getElem _ _ _ _ 0 (by decide) (by decide) (by decide) hr
    · obtain ⟨t, ht⟩ := mem_createTableDDLs hcts hmem
      obtain ⟨r, hr⟩ := generateCreateTable_shape t
      rw [hri, hr] at ht
      cases hu : idx'.unique <;> rw [hu] at ht <;>
        exact strNe_of_getElem _ _ _ _ 7 (by decide) (by decide) (by decide) ht
    · obtain ⟨e, he, hck, heq⟩ := mem_createIndexDDLs hmem
      obtain ⟨hen, hens⟩ := hkd e he
      obtain ⟨hin, hins⟩ := hkd (name, idx') (mem_of_lookupA_eq_some hd)
      have hnn : idx'.name = e.2.name :=
        generateCreateIndex_inj_name (by rw [hin]; exact hins)
          (by rw [hen]; exact hens) heq
      rw [hin, hen] at hnn
      rw [← hnn] at hck
      rw [show containsKeyA c.indexes name = true by
          simp [containsKeyA, hc]] at hck
      cases hck

/-- Witness for `c5_theorem` at the schemas of `c5_counterexample`. -/
theorem c5_witness :
    ("DROP INDEX " ++ "idx") ∉ ([] : List String)
      ∧ generateCreateIndex exIdxB ∉ ([] : List String) :=
  @c5_theorem ⟨[("t", exPlainTable)], [("idx", exIdxA)]⟩
    ⟨[("t", exPlainTable)], [("idx", exIdxB)]⟩ [] "idx" exIdxA exIdxB
    (by decide) (by decide) (by decide) (by decide) (by decide) (by decide)

/-! ## C6 — cyclic dependencies -/

theorem cyc_processTable_none :
    ∀ (fuel : Nat) (st : SortState), "A" ∉ st.processed → "B" ∉ st.processed →
      processTable (buildTableMap [exCycA, exCycB]) fuel st exCycA = none
        ∧ processTable (buildTableMap [exCycA, exCycB]) fuel st exCycB = none := by
  intro fuel
  induction fuel with
  | zero => intro st _ _; exact ⟨rfl, rfl⟩
  | succ fuel ih =>
      intro st hA hB
      constructor
      · show (if exCycA.name ∈ st.processed then some st
          else match (tableDeps (buildTableMap [exCycA, exCycB])
              exCycA).foldlM (processTable (buildTableMap [exCycA, exCycB]) fuel)
              st with
          | none => none
          | some st' => some ⟨st'.result ++ [exCycA],
              st'.processed ++ [exCycA.name]⟩) = none
        rw [if_neg (by simpa [exCycA] using hA)]
        rw [show tableDeps (buildTableMap [exCycA, exCycB]) exCycA = [exCycB]
          from by decide]
        rw [show ([exCycB].foldlM (processTable
            (buildTableMap [exCycA, exCycB]) fuel) st)
          = (processTable (buildTableMap [exCycA, exCycB]) fuel st
              exCycB).bind (fun s => some s) from rfl]
        rw [(ih st hA hB).2]
        rfl
      · show (if exCycB.name ∈ st.processed then some st
          else match (tableDeps (buildTableMap [exCycA, exCycB])
              exCycB).foldlM (processTable (buildTableMap [exCycA, exCycB]) fuel)
              st with
          | none => none
          | some st' => some ⟨st'.result ++ [exCycB],
              st'.processed ++ [exCycB.name]⟩) = none
        rw [if_neg (by simpa [exCycB] using hB)]
        rw [show tableDeps (buildTableMap [exCycA, exCycB]) exCycB = [exCycA]
          from by decide]
        rw [show ([exCycA].foldlM (processTable
            (buildTableMap [exCycA, exCycB]) fuel) st)
          = (processTable (buildTableMap [exCycA, exCycB]) fuel st
              exCycA).bind (fun s => some s) from rfl]
        rw [(ih st hA hB).1]
        rfl

/-- C6: the claim that cyclic dependencies are detected and reported as a
CyclicDependency planning error is contradicted by the code: on two tables
each interleaved in the other, the recursive `processTable` never marks
either table and recurses forever (no fuel bound suffices in the model —
the Go original overflows the stack), and `GenerateDDLs` has no error
channel at all, so no error object of any kind can be reported. -/
theorem c6_theorem :
    (∀ fuel : Nat, processTable (buildTableMap [exCycA, exCycB]) fuel
        ⟨[], []⟩ exCycA = none)
    ∧ GenerateDDLs ⟨[], []⟩ ⟨[("A", exCycA), ("B", exCycB)], []⟩ = none :=
  ⟨fun fuel => (cyc_processTable_none fuel ⟨[], []⟩ (by simp) (by simp)).1,
   by decide⟩

/-! ## C7 — column attribute changes -/

/-- C7 (counterexample): column `a` differs only in NOT NULL and column `b`
differs only in DEFAULT between the current and desired versions of table
`t`; the claim requires ALTER COLUMN statements, but the generated plan is
empty. -/
theorem c7_counterexample :
    GenerateDDLs ⟨[("t", exC7cur)], []⟩ ⟨[("t", exC7des)], []⟩ = some []
    ∧ (lookupA exC7cur.columns "a").map Column.notNull
        ≠ (lookupA exC7des.columns "a").map Column.notNull
    ∧ (lookupA exC7cur.columns "b").map Column.default
        ≠ (lookupA exC7des.columns "b").map Column.default
    ∧ (lookupA exC7cur.columns "a").map Column.type
        = (lookupA exC7des.columns "a").map Column.type := by
  refine ⟨by decide, by decide, by decide, by decide⟩

/-- C7 (amended): for a column present in both versions of a table, the
plan contains an `ALTER TABLE .. ALTER COLUMN` statement — carrying the
desired type and NOT NULL attribute, but no DEFAULT — exactly when the
type string differs; when the types are equal, no ALTER COLUMN statement
for that column appears, even if NOT NULL or DEFAULT differ. -/
theorem c7_theorem {c d : Schema} {l : List String} {tn cn : String}
    {ct dt : Table} {cc dc : Column}
    (hgen : GenerateDDLs c d = some l)
    (htc : lookupA c.tables tn = some ct)
    (htd : lookupA d.tables tn = some dt)
    (hcc : lookupA ct.columns cn = some cc)
    (hdc : lookupA dt.columns cn = some dc)
    (hndt : (d.tables.map Prod.fst).Nodup)
    (hkt : ∀ e ∈ d.tables, e.2.name = e.1 ∧ noSpace e.1 = true)
    (hndcol : (dt.columns.map Prod.fst).Nodup)
    (hcolk : ∀ e ∈ dt.columns, noSpace e.1 = true) :
    (cc.type ≠ dc.type →
      ("ALTER TABLE " ++ (dt.name ++ (" ALTER COLUMN " ++ (cn ++ (" " ++ (dc.type
        ++ (if dc.notNull then " NOT NULL" else ""))))))) ∈ l)
    ∧ (cc.type = dc.type →
      ∀ r, ("ALTER TABLE " ++ (dt.name ++ (" ALTER COLUMN " ++ (cn ++ (" " ++ r)))))
        ∉ l) := by
  obtain ⟨cts, hcts, hl⟩ := generateDDLs_eq hgen
  subst hl
  constructor
  · intro hne
    apply List.mem_append_left
    apply List.mem_append_left
    apply List.mem_append_right
    unfold generateAlterTableDDLs
    rw [List.mem_flatMap]
    refine ⟨(tn, dt), mem_of_lookupA_eq_some htd, ?_⟩
    rw [show lookupA c.tables (tn, dt).1 = some ct from htc]
    unfold generateAlterTable
    apply List.mem_append_left
    apply List.mem_append_right
    rw [List.mem_filterMap]
    refine ⟨(cn, dc), mem_of_lookupA_eq_some hdc, ?_⟩
    have hb : (cc.type != dc.type) = true := by simpa using hne
    simp only [show lookupA ct.columns (cn, dc).1 = some cc from hcc, hb, if_true]
    congr 1
    simp [String.append_assoc]
  · intro heq r hmem
    simp only [List.mem_append] at hmem
    rcases hmem with (((hmem | hmem) | hmem) | hmem) | hmem
    · obtain ⟨e, -, hmeq, -⟩ := mem_dropIndexDDLs hmem
      exact strNe_of_getElem _ _ _ _ 0 (by decide) (by decide) (by decide) hmeq
    · obtain ⟨e, -, hmeq⟩ := mem_dropTableDDLs hmem
      exact strNe_of_getElem _ _ _ _ 0 (by decide) (by decide) (by decide) hmeq
    · obtain ⟨et, ct', het, hlc, hs⟩ := mem_alterTableDDLs hmem
      obtain ⟨hetn, hetns⟩ := hkt et het
      obtain ⟨hdtn, hdtns⟩ := hkt (tn, dt) (mem_of_lookupA_eq_some htd)
      have hdns : noSpace dt.name = true := by rw [hdtn]; exact hdtns
      have hens : noSpace et.2.name = true := by rw [hetn]; exact hetns
      rcases mem_generateAlterTable_cases hs with
        ⟨r', hr⟩ | ⟨e, -, hr⟩ | ⟨e, -, hr⟩ | ⟨e, cc', he, hl', hty, hr⟩ | ⟨r', hr⟩
      · have hk := keyword_split hdns hens ⟨"ALTER COLUMN ", rfl⟩
          ⟨"ADD COLUMN ", rfl⟩ (strAppend_cancel hr)
        exact strNe_of_getElem _ _ _ _ 2 (by decide) (by decide) (by decide) hk.2
      · have hk := keyword_split hdns hens ⟨"ALTER COLUMN ", rfl⟩
          ⟨"DROP CONSTRAINT ", rfl⟩ (strAppend_cancel hr)
        exact strNe_of_getElem _ _ _ _ 1 (by decide) (by decide) (by decide) hk.2
      · have hk := keyword_split hdns hens ⟨"ALTER COLUMN ", rfl⟩
          ⟨"DROP COLUMN ", rfl⟩ (strAppend_cancel hr)
        exact strNe_of_getElem _ _ _ _ 1 (by decide) (by decide) (by decide) hk.2
      · have hk := keyword_split hdns hens ⟨"ALTER COLUMN ", rfl⟩
          ⟨"ALTER COLUMN ", rfl⟩ (strAppend_cancel hr)
      -- same table: identify the entry and contradict the type condition
        have htn : et.1 = tn := by rw [← hetn, ← hk.1, hdtn]
        have het2 : et.2 = dt := by
          have h2 := lookupA_of_mem_nodup hndt (by simpa using het)
          rw [htn, htd] at h2
          exact (Option.some.inj h2).symm
        rw [het2] at he
        have hcol := strAppend_cancel hk.2
        have hsp : noSpace cn = true :=
          hcolk (cn, dc) (mem_of_lookupA_eq_some hdc)
        have hsp' : noSpace e.1 = true := hcolk e he
        have h' : cn ++ " " ++ r = e.1 ++ " " ++ (e.2.type
            ++ (if e.2.notNull then " NOT NULL" else "")) := by
          rw [String.append_assoc, String.append_assoc]
          exact hcol
        obtain ⟨ha, -⟩ := noSpace_split _ _ _ _ hsp hsp' h'
        have he2 : e.2 = dc := by
          have h3 := lookupA_of_mem_nodup hndcol (by simpa using he)
          rw [← ha, hdc] at h3
          exact (Option.some.inj h3).symm
        have hct2 : ct' = ct := by
          rw [htn, htc] at hlc
          exact (Option.some.inj hlc).symm
        have hcc2 : cc' = cc := by
          rw [hct2, ← ha, hcc] at hl'
          exact (Option.some.inj hl').symm
        rw [hcc2, he2, heq] at hty
        simp at hty
      · have hk := keyword_split hdns hens ⟨"ALTER COLUMN ", rfl⟩
          ⟨"ADD CONSTRAINT ", rfl⟩ (strAppend_cancel hr)
        exact strNe_of_getElem _ _ _ _ 2 (by decide) (by decide) (by decide) hk.2
    · obtain ⟨t, ht⟩ := mem_createTableDDLs hcts hmem
      obtain ⟨r', hr⟩ := generateCreateTable_shape t
      rw [hr] at ht
      exact strNe_of_getElem _ _ _ _ 0 (by decide) (by decide) (by decide) ht
    · obtain ⟨e, -, -, hmeq⟩ := mem_createIndexDDLs hmem
      obtain ⟨r', hr⟩ := generateCreateIndex_shape e.2
      rw [hr] at hmeq
      cases hu : e.2.unique <;> rw [hu] at hmeq <;>
        exact strNe_of_getElem _ _ _ _ 0 (by decide) (by decide) (by decide) hmeq

/-- Witness for `c7_theorem`: a type change does emit the ALTER COLUMN
statement, and with equal types nothing is emitted for the column. -/
theorem c7_witness :
    ("ALTER TABLE " ++ ("t" ++ (" ALTER COLUMN " ++ ("a" ++ (" " ++ ("STRING(10)"
        ++ (if false then " NOT NULL" else "")))))))
      ∈ ["ALTER TABLE t ALTER COLUMN a STRING(10)"]
    ∧ ("ALTER TABLE " ++ ("t" ++ (" ALTER COLUMN " ++ ("a" ++ (" " ++ "INT64")))))
      ∉ ([] : List String) :=
  ⟨(@c7_theorem ⟨[("t", exC7cur)], []⟩ ⟨[("t", exC7desTy)], []⟩
      ["ALTER TABLE t ALTER COLUMN a STRING(10)"] "t" "a" exC7cur exC7desTy
      ⟨"a", "INT64", false, "", "", 0⟩ ⟨"a", "STRING(10)", false, "", "", 0⟩
      (by decide) (by decide) (by decide) (by decide) (by decide) (by decide)
      (by decide) (by decide) (by decide)).1 (by decide),
   (@c7_theorem ⟨[("t", exC7cur)], []⟩ ⟨[("t", exC7des)], []⟩
      [] "t" "a" exC7cur exC7des
      ⟨"a", "INT64", false, "", "", 0⟩ ⟨"a", "INT64", true, "", "", 0⟩
      (by decide) (by decide) (by decide) (by decide) (by decide) (by decide)
      (by decide) (by decide) (by decide)).2 (by decide) "INT64"⟩

/-! ## C4: forward dependency order for creates -/

/-- C4: in every successfully generated plan (the dependency sort
terminates, which the fueled embedding renders as `GenerateDDLs = some l`),
for tables `P` and `T` both created by the plan (present in the desired
schema under their own names, absent from current), if `T` is interleaved
in parent `P` or carries a FOREIGN KEY constraint referencing `P`, then the
CREATE TABLE statement for `P` precedes the CREATE TABLE statement for
`T`. -/
theorem c4_theorem {c d : Schema} {l : List String}
    (hgen : GenerateDDLs c d = some l)
    (hkeys : ∀ e ∈ d.tables, Table.name (Prod.snd e) = e.1)
    (hnd : (d.tables.map Prod.fst).Nodup)
    {P T : Table}
    (hPmem : (Table.name P, P) ∈ d.tables)
    (hPnew : containsKeyA c.tables (Table.name P) = false)
    (hTmem : (Table.name T, T) ∈ d.tables)
    (hTnew : containsKeyA c.tables (Table.name T) = false)
    (hPname : Table.name P ≠ "")
    (hdep : T.parentTable = Table.name P ∨
      ∃ e ∈ T.constraints, (Prod.snd e : Constraint).type = "FOREIGN KEY"
        ∧ (Prod.snd e : Constraint).referenceTable = Table.name P) :
    ∃ l₁ l₂ l₃, l = l₁ ++ generateCreateTable P :: l₂
        ++ generateCreateTable T :: l₃ := by
  obtain ⟨cts, hct, hl⟩ := generateDDLs_eq hgen
  obtain ⟨ts, hsort, hmap⟩ : ∃ ts, sortTablesByDependency (d.tables.filterMap
      (fun e => if containsKeyA c.tables e.1 then none else some e.2)) = some ts
      ∧ List.map generateCreateTable ts = cts := by
    simpa [generateCreateTableDDLs, Option.map_eq_some'] using hct
  have hPn : P ∈ d.tables.filterMap (fun e =>
      if containsKeyA c.tables e.1 then none else some e.2) :=
    List.mem_filterMap.mpr ⟨(Table.name P, P), hPmem, by simp [hPnew]⟩
  have hTn : T ∈ d.tables.filterMap (fun e =>
      if containsKeyA c.tables e.1 then none else some e.2) :=
    List.mem_filterMap.mpr ⟨(Table.name T, T), hTmem, by simp [hTnew]⟩
  obtain ⟨m₁, m₂, m₃, hres⟩ :=
    sorted_order (newTables_unique hkeys hnd) hsort hPn hTn hPname hdep
  refine ⟨generateDropIndexDDLs c d ++ generateDropTableDDLs c d
      ++ generateAlterTableDDLs c d ++ m₁.map generateCreateTable,
    m₂.map generateCreateTable,
    m₃.map generateCreateTable ++ generateCreateIndexDDLs c d, ?_⟩
  rw [hl, ← hmap, hres]
  simp [List.map_append]

/-- Witness for `c4_theorem`: creating interleaved `posts` (parent `users`)
from scratch, with the child listed first in the desired map. -/
theorem c4_witness :
    ∃ l₁ l₂ l₃,
      [generateCreateTable exParent, generateCreateTable exChild]
        = l₁ ++ generateCreateTable exParent :: l₂
          ++ generateCreateTable exChild :: l₃ :=
  @c4_theorem ⟨[], []⟩ ⟨[("posts", exChild), ("users", exParent)], []⟩
    [generateCreateTable exParent, generateCreateTable exChild]
    (by decide) (by decide) (by decide) exParent exChild
    (by decide) (by decide) (by decide) (by decide) (by decide)
    (Or.inl (by decide))

/-! ## C8: determinism and ordering of the emitted plan -/

/-- C8 (counterexample): the claim that each phase is ordered by
lexicographic comparison of the primary name, independently of input
ordering, is false: two current schemas equal as name-keyed mappings
(entry lists that are permutations of each other) give the DROP INDEX
statements in the two different entry orders, one of which is
anti-alphabetical. -/
theorem c8_counterexample :
    ([("b", exIdxQ), ("a", exIdxP)] : List (String × Index)).Perm
        [("a", exIdxP), ("b", exIdxQ)]
    ∧ GenerateDDLs ⟨[("t", exC7cur)], [("a", exIdxP), ("b", exIdxQ)]⟩
        ⟨[("t", exC7cur)], []⟩ = some ["DROP INDEX a", "DROP INDEX b"]
    ∧ GenerateDDLs ⟨[("t", exC7cur)], [("b", exIdxQ), ("a", exIdxP)]⟩
        ⟨[("t", exC7cur)], []⟩ = some ["DROP INDEX b", "DROP INDEX a"]
    ∧ goStrLt "b" "a" = false :=
  ⟨List.Perm.swap ("a", exIdxP) ("b", exIdxQ) [],
    by decide, by decide, by decide⟩

/-- C8 (amended): the plan is deterministic only up to map iteration
order: for current schemas equal as name-keyed mappings (permuted
duplicate-free entry lists) the generated plans are permutations of each
other -- the two drop phases follow iteration order while every other
phase is pointwise identical; no phase sorts lexicographically. -/
theorem c8_theorem {c₁ c₂ d : Schema}
    (hpt : c₁.tables.Perm c₂.tables) (hpi : c₁.indexes.Perm c₂.indexes)
    (hndt : (c₁.tables.map Prod.fst).Nodup)
    (hndi : (c₁.indexes.map Prod.fst).Nodup) :
    ∀ l₁ l₂, GenerateDDLs c₁ d = some l₁ → GenerateDDLs c₂ d = some l₂ →
      l₁.Perm l₂ := by
  intro l₁ l₂ h₁ h₂
  have hlk : ∀ k, lookupA c₁.tables k = lookupA c₂.tables k :=
    fun k => lookupA_eq_of_perm hpt hndt k
  have hlki : ∀ k, lookupA c₁.indexes k = lookupA c₂.indexes k :=
    fun k => lookupA_eq_of_perm hpi hndi k
  obtain ⟨cts₁, hct₁, hl₁⟩ := generateDDLs_eq h₁
  obtain ⟨cts₂, hct₂, hl₂⟩ := generateDDLs_eq h₂
  have hcteq : generateCreateTableDDLs c₁ d = generateCreateTableDDLs c₂ d := by
    simp only [generateCreateTableDDLs, containsKeyA, hlk]
  have hateq : generateAlterTableDDLs c₁ d = generateAlterTableDDLs c₂ d := by
    simp only [generateAlterTableDDLs, hlk]
  have hcieq : generateCreateIndexDDLs c₁ d
      = generateCreateIndexDDLs c₂ d := by
    simp only [generateCreateIndexDDLs, containsKeyA, hlki]
  rw [hcteq, hct₂] at hct₁
  cases Option.some.inj hct₁
  rw [hl₁, hl₂, hateq, hcieq]
  refine List.Perm.append (List.Perm.append (List.Perm.append
    (List.Perm.append ?_ ?_) (List.Perm.refl _)) (List.Perm.refl _))
    (List.Perm.refl _)
  · exact hpi.filterMap _
  · exact hpt.filterMap _

/-- Witness for `c8_theorem` at the two schemas of `c8_counterexample`. -/
theorem c8_witness :
    (["DROP INDEX a", "DROP INDEX b"] : List String).Perm
      ["DROP INDEX b", "DROP INDEX a"] :=
  @c8_theorem ⟨[("t", exC7cur)], [("a", exIdxP), ("b", exIdxQ)]⟩
    ⟨[("t", exC7cur)], [("b", exIdxQ), ("a", exIdxP)]⟩
    ⟨[("t", exC7cur)], []⟩
    (List.Perm.refl _) (List.Perm.swap ("b", exIdxQ) ("a", exIdxP) [])
    (by decide) (by decide)
    ["DROP INDEX a", "DROP INDEX b"] ["DROP INDEX b", "DROP INDEX a"]
    (by decide) (by decide)

/-! ## C10: duplicate names overwrite silently -/

theorem foldl_preserves_tableLookup (sts : List Stmt) (sch₀ : Schema)
    (n : String) (v : Table) (h0 : lookupA sch₀.tables n = some v)
    (h : ∀ s ∈ sts, definesTable n s = false) :
    lookupA ((sts.foldl processStatement sch₀).tables) n = some v := by
  induction sts generalizing sch₀ with
  | nil => exact h0
  | cons s ss ih =>
      rw [List.foldl_cons]
      refine ih (processStatement sch₀ s) ?_
        (fun u hu => h u (List.mem_cons_of_mem _ hu))
      cases s with
      | createTable ct =>
          have hne : ct.name ≠ n := by
            have := h _ (List.mem_cons_self _ _)
            simpa [definesTable] using this
          show lookupA (insertA sch₀.tables ct.name (tableFromAST ct)) n
            = some v
          rw [lookupA_insertA, if_neg hne]
          exact h0
      | createIndex ci => exact h0
      | other => exact h0

theorem foldl_preserves_indexLookup (sts : List Stmt) (sch₀ : Schema)
    (n : String) (v : Index) (h0 : lookupA sch₀.indexes n = some v)
    (h : ∀ s ∈ sts, definesIndex n s = false) :
    lookupA ((sts.foldl processStatement sch₀).indexes) n = some v := by
  induction sts generalizing sch₀ with
  | nil => exact h0
  | cons s ss ih =>
      rw [List.foldl_cons]
      refine ih (processStatement sch₀ s) ?_
        (fun u hu => h u (List.mem_cons_of_mem _ hu))
      cases s with
      | createIndex ci =>
          have hne : ci.name ≠ n := by
            have := h _ (List.mem_cons_self _ _)
            simpa [definesIndex] using this
          show lookupA (insertA sch₀.indexes ci.name (indexFromAST ci)) n
            = some v
          rw [lookupA_insertA, if_neg hne]
          exact h0
      | createTable ct => exact h0
      | other => exact h0

/-- C10: processing never fails on duplicate names, and after a
CREATE TABLE (resp. CREATE INDEX) statement that no later statement
redefines, the schema maps that name to exactly the table (resp. index)
built from that statement -- the last definition wins, whatever the
schema held before. -/
theorem c10_theorem (sch : Schema) (sts : List Stmt) :
    (∀ ct : ASTCreateTable, (∀ s ∈ sts, definesTable ct.name s = false) →
      lookupA ((sts.foldl processStatement
          (processStatement sch (.createTable ct))).tables) ct.name
        = some (tableFromAST ct))
    ∧ (∀ ci : ASTCreateIndex, (∀ s ∈ sts, definesIndex ci.name s = false) →
      lookupA ((sts.foldl processStatement
          (processStatement sch (.createIndex ci))).indexes) ci.name
        = some (indexFromAST ci)) := by
  constructor
  · intro ct h
    refine foldl_preserves_tableLookup sts _ ct.name _ ?_ h
    show lookupA (insertA sch.tables ct.name (tableFromAST ct)) ct.name
      = some (tableFromAST ct)
    rw [lookupA_insertA, if_pos rfl]
  · intro ci h
    refine foldl_preserves_indexLookup sts _ ci.name _ ?_ h
    show lookupA (insertA sch.indexes ci.name (indexFromAST ci)) ci.name
      = some (indexFromAST ci)
    rw [lookupA_insertA, if_pos rfl]

set_option maxRecDepth 80000 in
/-- Witness for `c10_theorem`, together with an end-to-end duplicate-name
parse: two CREATE TABLE `t` and two CREATE INDEX `i` statements parse
without error into the second definition of each. -/
theorem c10_witness :
    ParseDDLs "CREATE TABLE t (a INT64 NOT NULL) PRIMARY KEY (a); CREATE TABLE t (b STRING(10)) PRIMARY KEY (b); CREATE INDEX i ON t (a); CREATE UNIQUE INDEX i ON t (b)"
      = some ⟨[("t", ⟨"t", [("b", ⟨"b", "STRING(10)", false, "", "", 0⟩)],
            ["b"], "", "", [], "", 0⟩)],
          [("i", ⟨"i", "t", ["b"], true, false, []⟩)]⟩
    ∧ lookupA ((([] : List Stmt).foldl processStatement
        (processStatement ⟨[("t", exPlainTable)], []⟩
          (.createTable ⟨"t", [], [], none, none, []⟩))).tables) "t"
      = some (tableFromAST ⟨"t", [], [], none, none, []⟩) :=
  ⟨by decide,
   (c10_theorem ⟨[("t", exPlainTable)], []⟩ []).1
     ⟨"t", [], [], none, none, []⟩ (by decide)⟩

/-! ## Statement splitting and re-parse lemmas (towards C1) -/

theorem space_not_word {c : Char} (h : isSpaceChar c = true) :
    isWordChar c = false := by
  simp only [isSpaceChar, Bool.or_eq_true, decide_eq_true_eq] at h
  rcases h with ((rfl | rfl) | rfl) | rfl <;> decide

theorem space_ne_semi {c : Char} (h : isSpaceChar c = true) :
    (c != ';') = true := by
  simp only [isSpaceChar, Bool.or_eq_true, decide_eq_true_eq] at h
  rcases h with ((rfl | rfl) | rfl) | rfl <;> decide

theorem tokenize_all_space (l : List Char) (h : l.all isSpaceChar = true) :
    tokenize l = [] := by
  unfold tokenize
  induction l with
  | nil => rfl
  | cons c cs ih =>
      simp only [List.all_cons, Bool.and_eq_true] at h
      show tokenizeAux (c :: cs) [] = []
      rw [tokenizeAux]
      rw [space_not_word h.1]
      simp only [Bool.false_eq_true, if_false, List.isEmpty_nil, if_pos rfl,
        h.1, if_true, List.nil_append]
      exact ih h.2

theorem splitSemi_ne_nil (l : List Char) : splitSemi l ≠ [] := by
  cases l with
  | nil => simp [splitSemi]
  | cons c rest =>
      rw [splitSemi]
      by_cases hc : c = ';'
      · simp [hc]
      · rw [if_neg hc]
        cases h : splitSemi rest <;> simp

theorem splitSemi_append (a b : List Char) :
    splitSemi (a ++ ';' :: b) = splitSemi a ++ splitSemi b := by
  induction a with
  | nil =>
      show splitSemi (';' :: b) = [[]] ++ splitSemi b
      rw [splitSemi, if_pos rfl]
      rfl
  | cons c a' ih =>
      show splitSemi (c :: (a' ++ ';' :: b)) = splitSemi (c :: a') ++ _
      rw [splitSemi, splitSemi]
      by_cases hc : c = ';'
      · rw [if_pos hc, if_pos hc, ih]
        rfl
      · rw [if_neg hc, if_neg hc, ih]
        cases ha : splitSemi a' with
        | nil => exact absurd ha (splitSemi_ne_nil a')
        | cons f fs => rfl

theorem splitSemi_no_semi (l : List Char)
    (h : l.all (fun c => c != ';') = true) : splitSemi l = [l] := by
  induction l with
  | nil => rfl
  | cons c cs ih =>
      simp only [List.all_cons, Bool.and_eq_true, bne_iff_ne] at h
      rw [splitSemi, if_neg h.1, ih (by simpa using h.2)]

theorem splitSemi_join (plan : List String) (hne : plan ≠ [])
    (h : ∀ p ∈ plan, p.data.all (fun c => c != ';') = true) :
    splitSemi (joinStr ";" plan).data = plan.map String.data := by
  induction plan with
  | nil => exact absurd rfl hne
  | cons p ps ih =>
      by_cases hps : ps = []
      · subst hps
        show splitSemi (joinStr ";" [p]).data = [p.data]
        exact splitSemi_no_semi p.data (h p (List.mem_cons_self _ _))
      · rw [joinStr_cons ";" p ps hps]
        rw [show (p ++ ";" ++ joinStr ";" ps).data
            = p.data ++ ';' :: (joinStr ";" ps).data from by
          rw [strData_append, strData_append]
          simp]
        rw [splitSemi_append, splitSemi_no_semi p.data
          (h p (List.mem_cons_self _ _)),
          ih hps (fun u hu => h u (List.mem_cons_of_mem _ hu))]
        rfl

theorem stepFragment_ignored (sch : Schema) (p : String)
    (h : fragmentIgnored p = true) : stepFragment sch p.data = some sch := by
  unfold fragmentIgnored at h
  rw [Bool.and_eq_true] at h
  unfold stepFragment
  cases ht : tokenize p.data with
  | nil => rfl
  | cons t ts =>
      have h2 := h.2
      rw [ht] at h2
      simp only [Bool.or_eq_true, beq_iff_eq] at h2
      rcases h2 with rfl | rfl
      · rfl
      · rfl

theorem foldFragments_ignored (plan : List String) (sch : Schema)
    (h : ∀ p ∈ plan, fragmentIgnored p = true) :
    foldFragments (plan.map String.data) sch = some sch := by
  induction plan with
  | nil => rfl
  | cons p ps ih =>
      show (match stepFragment sch p.data with
        | none => none
        | some sch' => foldFragments (ps.map String.data) sch') = some sch
      rw [stepFragment_ignored sch p (h p (List.mem_cons_self _ _))]
      exact ih (fun u hu => h u (List.mem_cons_of_mem _ hu))

theorem foldFragments_append (a b : List (List Char)) (sch : Schema) :
    foldFragments (a ++ b) sch
      = match foldFragments a sch with
        | none => none
        | some s => foldFragments b s := by
  induction a generalizing sch with
  | nil => rfl
  | cons f fs ih =>
      show (match stepFragment sch f with
        | none => none
        | some sch' => foldFragments (fs ++ b) sch')
        = match (match stepFragment sch f with
            | none => none
            | some sch' => foldFragments fs sch') with
          | none => none
          | some s => foldFragments b s
      cases hs : stepFragment sch f with
      | none => rfl
      | some sch' => exact ih sch'

set_option maxRecDepth 80000 in
/-- C1 (counterexample): the claim that applying the plan by re-parsing
the textual concatenation and diffing again yields an empty plan is
false: with desired schema empty, the plan is `DROP TABLE old_table`,
re-parsing the concatenation ignores the DROP statement (the schema still
holds the table), and the second diff emits the same nonempty plan. -/
theorem c1_counterexample :
    ParseDDLs "CREATE TABLE old_table (id INT64 NOT NULL) PRIMARY KEY (id)"
      = some exOldSchema
    ∧ GenerateDDLs exOldSchema ⟨[], []⟩ = some ["DROP TABLE old_table"]
    ∧ ParseDDLs
        ("CREATE TABLE old_table (id INT64 NOT NULL) PRIMARY KEY (id)"
          ++ ";" ++ joinStr ";" ["DROP TABLE old_table"])
      = some exOldSchema
    ∧ GenerateDDLs exOldSchema ⟨[], []⟩ ≠ some [] :=
  ⟨by decide, by decide, by decide, by decide⟩

/-- C1 (amended): re-parsing ignores every non-CREATE statement, so for
plans consisting solely of DROP/ALTER statements (as every statement of
the drop and alter phases is), applying the plan by textual concatenation
leaves the parsed schema unchanged, and the second diff equals the first
-- idempotence fails for every such nonempty plan. -/
theorem c1_theorem (cur : String) (plan : List String)
    (hplan : ∀ p ∈ plan, fragmentIgnored p = true) :
    ParseDDLs (cur ++ ";" ++ joinStr ";" plan) = ParseDDLs cur
    ∧ ∀ (des sch applied : Schema), ParseDDLs cur = some sch →
        ParseDDLs (cur ++ ";" ++ joinStr ";" plan) = some applied →
        GenerateDDLs applied des = GenerateDDLs sch des := by
  have hjfrag : ∀ sch : Schema,
      foldFragments (splitSemi (joinStr ";" plan).data) sch = some sch := by
    intro sch
    by_cases hps : plan = []
    · subst hps
      rfl
    · rw [splitSemi_join plan hps (fun p hp => by
        have hi := hplan p hp
        unfold fragmentIgnored at hi
        rw [Bool.and_eq_true] at hi
        exact hi.1)]
      exact foldFragments_ignored plan sch hplan
  have hdata : (cur ++ ";" ++ joinStr ";" plan).data
      = cur.data ++ ';' :: (joinStr ";" plan).data := by
    rw [strData_append, strData_append]
    simp
  have hguard :
      ((cur ++ ";" ++ joinStr ";" plan).data.all isSpaceChar) = false := by
    rw [hdata]
    simp [List.all_append, List.all_cons, isSpaceChar]
  have hmain : ParseDDLs (cur ++ ";" ++ joinStr ";" plan) = ParseDDLs cur := by
    rw [ParseDDLs, ParseDDLs]
    rw [if_neg (by rw [hguard]; exact Bool.false_ne_true)]
    rw [hdata, splitSemi_append, foldFragments_append]
    by_cases hc : cur.data.all isSpaceChar = true
    · rw [if_pos hc]
      have hsp : splitSemi cur.data = [cur.data] :=
        splitSemi_no_semi cur.data (by
          rw [List.all_eq_true] at hc ⊢
          exact fun c hcc => space_ne_semi (hc c hcc))
      rw [hsp]
      show (match foldFragments [cur.data] ⟨[], []⟩ with
        | none => none
        | some s => foldFragments (splitSemi (joinStr ";" plan).data) s)
        = some ⟨[], []⟩
      rw [show foldFragments [cur.data] (⟨[], []⟩ : Schema)
          = some ⟨[], []⟩ from by
        show (match stepFragment ⟨[], []⟩ cur.data with
          | none => none
          | some sch' => foldFragments [] sch') = some ⟨[], []⟩
        rw [show stepFragment (⟨[], []⟩ : Schema) cur.data
            = some ⟨[], []⟩ from by
          unfold stepFragment
          rw [tokenize_all_space cur.data hc]]
        rfl]
      exact hjfrag ⟨[], []⟩
    · rw [if_neg hc]
      cases hf : foldFragments (splitSemi cur.data) ⟨[], []⟩ with
      | none => rfl
      | some s => exact hjfrag s
  refine ⟨hmain, ?_⟩
  intro des sch applied h₁ h₂
  rw [hmain, h₁] at h₂
  cases Option.some.inj h₂
  rfl

set_option maxRecDepth 80000 in
/-- Witness for `c1_theorem` at the text and plan of
`c1_counterexample`. -/
theorem c1_witness :
    ParseDDLs ("CREATE TABLE old_table (id INT64 NOT NULL) PRIMARY KEY (id)"
        ++ ";" ++ joinStr ";" ["DROP TABLE old_table"])
      = ParseDDLs
          "CREATE TABLE old_table (id INT64 NOT NULL) PRIMARY KEY (id)" :=
  ( c1_theorem "CREATE TABLE old_table (id INT64 NOT NULL) PRIMARY KEY (id)"
    ["DROP TABLE old_table"] (by decide)).1

/-! ## Lexing rendered CREATE INDEX statements (towards C3) -/

theorem tokenizeAux_append_word (w : List Char) (hw : w.all isWordChar = true) :
    ∀ (l acc : List Char), tokenizeAux (w ++ l) acc
      = tokenizeAux l (w.reverse ++ acc) := by
  induction w with
  | nil => intro l acc; rfl
  | cons c w' ih =>
      intro l acc
      simp only [List.all_cons, Bool.and_eq_true] at hw
      show tokenizeAux (c :: (w' ++ l)) acc = _
      rw [tokenizeAux, hw.1, if_pos rfl, ih hw.2]
      rw [List.reverse_cons, List.append_assoc]
      rfl

theorem tokenizeAux_nonword (c : Char) (hc : isWordChar c = false)
    (l acc : List Char) :
    tokenizeAux (c :: l) acc
      = (if acc.isEmpty then [] else [String.mk acc.reverse])
        ++ (if isSpaceChar c then [] else [String.mk [c]])
        ++ tokenizeAux l [] := by
  rw [tokenizeAux, hc]
  cases hs : isSpaceChar c with
  | true => simp [hs]
  | false => simp [hs]

theorem wordStr_ne (k : String) (hk : isWordStr k = true) (s : String)
    (hs : isWordStr s = false) : k ≠ s := by
  intro h
  rw [h, hs] at hk
  cases hk

theorem tok_word (w : String) (hw : isWordStr w = true) (c : Char)
    (hc : isWordChar c = false) (l : List Char) :
    tokenizeAux (w.data ++ c :: l) []
      = w :: ((if isSpaceChar c then [] else [String.mk [c]])
          ++ tokenizeAux l []) := by
  unfold isWordStr at hw
  rw [Bool.and_eq_true, Bool.not_eq_true'] at hw
  rw [tokenizeAux_append_word w.data hw.2, tokenizeAux_nonword c hc,
    List.append_nil]
  rw [show w.data.reverse.isEmpty = false from by
    cases hd : w.data with
    | nil => rw [hd] at hw; exact absurd hw.1 (by decide)
    | cons a as => simp]
  rw [List.reverse_reverse]
  show [String.mk w.data] ++ _ = _
  rw [show String.mk w.data = w from rfl]
  rfl

theorem tok_word_end (w : String) (hw : isWordStr w = true) :
    tokenizeAux w.data [] = [w] := by
  unfold isWordStr at hw
  rw [Bool.and_eq_true, Bool.not_eq_true'] at hw
  rw [show w.data = w.data ++ [] from (List.append_nil _).symm,
    tokenizeAux_append_word w.data hw.2]
  show (if (w.data.reverse ++ []).isEmpty then []
    else [String.mk (w.data.reverse ++ []).reverse]) = [w]
  rw [List.append_nil]
  rw [show w.data.reverse.isEmpty = false from by
    cases hd : w.data with
    | nil => rw [hd] at hw; exact absurd hw.1 (by decide)
    | cons a as => simp]
  rw [List.reverse_reverse]
  rfl

theorem tok_keys (ks : List String) (hne : ks ≠ [])
    (hkw : ∀ k ∈ ks, isWordStr k = true) :
    ∀ l : List Char, tokenizeAux ((joinStr ", " ks).data ++ ')' :: l) []
      = commaToks ks ++ ")" :: tokenizeAux l [] := by
  induction ks with
  | nil => exact absurd rfl hne
  | cons k ks ih =>
      intro l
      by_cases hks : ks = []
      · subst hks
        show tokenizeAux ((joinStr ", " [k]).data ++ ')' :: l) []
          = [k] ++ ")" :: tokenizeAux l []
        rw [show joinStr ", " [k] = k from rfl]
        rw [tok_word k (hkw k (List.mem_cons_self _ _)) ')' (by decide) l]
        rfl
      · rw [joinStr_cons ", " k ks hks]
        rw [show (k ++ ", " ++ joinStr ", " ks).data ++ ')' :: l
            = k.data ++ ',' :: ' ' :: ((joinStr ", " ks).data ++ ')' :: l)
          from by
            rw [strData_append, strData_append]
            simp]
        rw [tok_word k (hkw k (List.mem_cons_self _ _)) ',' (by decide)]
        rw [show (if isSpaceChar ',' then [] else [String.mk [',']])
            = [","] from by decide]
        rw [tokenizeAux_nonword ' ' (by decide)]
        rw [show (if ([] : List Char).isEmpty then []
            else [String.mk ([] : List Char).reverse]) = [] from by decide]
        rw [show (if isSpaceChar ' ' then [] else [String.mk [' ']])
            = [] from by decide]
        rw [ih hks (fun u hu => hkw u (List.mem_cons_of_mem _ hu)) l]
        rw [show commaToks (k :: ks) = k :: "," :: commaToks ks from by
          cases ks with
          | nil => exact absurd rfl hks
          | cons q qs => rfl]
        rfl

theorem parse_commaToks (ks : List String) (hne : ks ≠ [])
    (hkw : ∀ k ∈ ks, isWordStr k = true) (r : List String) :
    parseCommaIds (commaToks ks ++ ")" :: r) = some (ks, r) := by
  induction ks with
  | nil => exact absurd rfl hne
  | cons k ks ih =>
      by_cases hks : ks = []
      · subst hks
        show parseCommaIds (k :: ")" :: r) = some ([k], r)
        rw [parseCommaIds]
        rw [if_neg (wordStr_ne k (hkw k (List.mem_cons_self _ _)) ")"
          (by decide))]
        rfl
      · rw [show commaToks (k :: ks) = k :: "," :: commaToks ks from by
          cases ks with
          | nil => exact absurd rfl hks
          | cons q qs => rfl]
        show parseCommaIds (k :: "," :: (commaToks ks ++ ")" :: r))
          = some (k :: ks, r)
        rw [parseCommaIds]
        rw [if_neg (wordStr_ne k (hkw k (List.mem_cons_self _ _)) ")"
          (by decide))]
        show (match parseCommaIds (commaToks ks ++ ")" :: r) with
          | some (ids, rr) => some (k :: ids, rr)
          | none => none) = some (k :: ks, r)
        rw [ih hks (fun u hu => hkw u (List.mem_cons_of_mem _ hu))]

theorem tok_sp_nil (l : List Char) :
    tokenizeAux (' ' :: l) [] = tokenizeAux l [] := by
  rw [tokenizeAux_nonword ' ' (by decide)]
  rfl

theorem tok_lparen (l : List Char) :
    tokenizeAux ('(' :: l) [] = "(" :: tokenizeAux l [] := by
  rw [tokenizeAux_nonword '(' (by decide)]
  rfl

theorem tok_word_sp (w : String) (hw : isWordStr w = true) (l : List Char) :
    tokenizeAux (w.data ++ ' ' :: l) [] = w :: tokenizeAux l [] := by
  rw [tok_word w hw ' ' (by decide)]
  rfl

theorem tok_create_prefix (l : List Char) :
    tokenizeAux (("CREATE INDEX" : String).data ++ ' ' :: l) []
      = "CREATE" :: "INDEX" :: tokenizeAux l [] := by
  show tokenizeAux (("CREATE" : String).data
    ++ ' ' :: (("INDEX" : String).data ++ ' ' :: l)) [] = _
  rw [tok_word_sp "CREATE" (by decide), tok_word_sp "INDEX" (by decide)]

theorem tok_create_unique_prefix (l : List Char) :
    tokenizeAux (("CREATE UNIQUE INDEX" : String).data ++ ' ' :: l) []
      = "CREATE" :: "UNIQUE" :: "INDEX" :: tokenizeAux l [] := by
  show tokenizeAux (("CREATE" : String).data
    ++ ' ' :: (("UNIQUE" : String).data
    ++ ' ' :: (("INDEX" : String).data ++ ' ' :: l))) [] = _
  rw [tok_word_sp "CREATE" (by decide), tok_word_sp "UNIQUE" (by decide),
    tok_word_sp "INDEX" (by decide)]

theorem tok_tail (nm tb : String) (ks : List String)
    (hname : isWordStr nm = true) (htab : isWordStr tb = true)
    (hne : ks ≠ []) (hkw : ∀ k ∈ ks, isWordStr k = true) (l : List Char) :
    tokenizeAux (nm.data ++ ' ' :: (("ON" : String).data ++ ' '
        :: (tb.data ++ ' ' :: ('(' :: ((joinStr ", " ks).data
          ++ ')' :: l))))) []
      = nm :: "ON" :: tb :: "("
        :: (commaToks ks ++ ")" :: tokenizeAux l []) := by
  rw [tok_word_sp nm hname, tok_word_sp "ON" (by decide),
    tok_word_sp tb htab, tok_lparen, tok_keys ks hne hkw l]

theorem tok_storing (ss : List String) (hne : ss ≠ [])
    (hsw : ∀ s ∈ ss, isWordStr s = true) :
    tokenizeAux (' ' :: (("STORING (" : String).data
        ++ ((joinStr ", " ss).data ++ ')' :: []))) []
      = "STORING" :: "(" :: (commaToks ss ++ [")"]) := by
  rw [tok_sp_nil]
  show tokenizeAux (("STORING" : String).data
    ++ ' ' :: ('(' :: ((joinStr ", " ss).data ++ ')' :: []))) [] = _
  rw [tok_word_sp "STORING" (by decide), tok_lparen, tok_keys ss hne hsw []]
  rfl

theorem tokenize_generateCreateIndex (i : Index)
    (hname : isWordStr i.name = true) (htab : isWordStr i.tableName = true)
    (hkeys : i.columns ≠ []) (hkw : ∀ k ∈ i.columns, isWordStr k = true)
    (hsw : ∀ s ∈ i.storing, isWordStr s = true) :
    tokenize (generateCreateIndex i).data
      = (if i.unique then ["CREATE", "UNIQUE", "INDEX"]
          else ["CREATE", "INDEX"])
        ++ (i.name :: "ON" :: i.tableName :: "("
            :: (commaToks i.columns
              ++ ")" :: (if i.storing.isEmpty then []
                else "STORING" :: "("
                  :: (commaToks i.storing ++ [")"])))) := by
  unfold tokenize
  cases hst : i.storing with
  | nil =>
      cases hu : i.unique with
      | false =>
          have hdata : (generateCreateIndex i).data
              = ("CREATE INDEX" : String).data ++ ' ' :: (i.name.data ++ ' '
                :: (("ON" : String).data ++ ' ' :: (i.tableName.data ++ ' '
                :: ('(' :: ((joinStr ", " i.columns).data
                  ++ ')' :: []))))) := by
            unfold generateCreateIndex
            rw [hu, hst]
            simp [joinStr_cons, joinStr_single, strData_append,
              show (" " : String).data = [' '] from rfl,
              show ("(" : String).data = ['('] from rfl,
              show (")" : String).data = [')'] from rfl]
          rw [hdata, tok_create_prefix,
            tok_tail i.name i.tableName i.columns hname htab hkeys hkw]
          rfl
      | true =>
          have hdata : (generateCreateIndex i).data
              = ("CREATE UNIQUE INDEX" : String).data
                ++ ' ' :: (i.name.data ++ ' '
                :: (("ON" : String).data ++ ' ' :: (i.tableName.data ++ ' '
                :: ('(' :: ((joinStr ", " i.columns).data
                  ++ ')' :: []))))) := by
            unfold generateCreateIndex
            rw [hu, hst]
            simp [joinStr_cons, joinStr_single, strData_append,
              show (" " : String).data = [' '] from rfl,
              show ("(" : String).data = ['('] from rfl,
              show (")" : String).data = [')'] from rfl]
          rw [hdata, tok_create_unique_prefix,
            tok_tail i.name i.tableName i.columns hname htab hkeys hkw]
          rfl
  | cons s ss =>
      rw [hst] at hsw
      cases hu : i.unique with
      | false =>
          have hdata : (generateCreateIndex i).data
              = ("CREATE INDEX" : String).data ++ ' ' :: (i.name.data ++ ' '
                :: (("ON" : String).data ++ ' ' :: (i.tableName.data ++ ' '
                :: ('(' :: ((joinStr ", " i.columns).data
                  ++ ')' :: (' ' :: (("STORING (" : String).data
                    ++ ((joinStr ", " (s :: ss)).data ++ ')' :: []))))))))
              := by
            unfold generateCreateIndex
            rw [hu, hst]
            simp [joinStr_cons, joinStr_single, strData_append,
              show (" " : String).data = [' '] from rfl,
              show ("(" : String).data = ['('] from rfl,
              show (")" : String).data = [')'] from rfl]
          rw [hdata, tok_create_prefix,
            tok_tail i.name i.tableName i.columns hname htab hkeys hkw,
            tok_storing (s :: ss) (List.cons_ne_nil s ss) hsw]
          rfl
      | true =>
          have hdata : (generateCreateIndex i).data
              = ("CREATE UNIQUE INDEX" : String).data
                ++ ' ' :: (i.name.data ++ ' '
                :: (("ON" : String).data ++ ' ' :: (i.tableName.data ++ ' '
                :: ('(' :: ((joinStr ", " i.columns).data
                  ++ ')' :: (' ' :: (("STORING (" : String).data
                    ++ ((joinStr ", " (s :: ss)).data ++ ')' :: []))))))))
              := by
            unfold generateCreateIndex
            rw [hu, hst]
            simp [joinStr_cons, joinStr_single, strData_append,
              show (" " : String).data = [' '] from rfl,
              show ("(" : String).data = ['('] from rfl,
              show (")" : String).data = [')'] from rfl]
          rw [hdata, tok_create_unique_prefix,
            tok_tail i.name i.tableName i.columns hname htab hkeys hkw,
            tok_storing (s :: ss) (List.cons_ne_nil s ss) hsw]
          rfl

theorem parseCreateIndex_tokens (u nf : Bool) (nm tb : String)
    (ks : List String) (hne : ks ≠ [])
    (hkw : ∀ k ∈ ks, isWordStr k = true) :
    parseCreateIndex u nf (nm :: "ON" :: tb :: "("
        :: (commaToks ks ++ [")"]))
      = some ⟨nm, tb, ks, u, nf, []⟩ := by
  simp only [parseCreateIndex]
  rw [parse_commaToks ks hne hkw []]

theorem parseCreateIndex_tokens_storing (u nf : Bool) (nm tb : String)
    (ks ss : List String) (hne : ks ≠ [])
    (hkw : ∀ k ∈ ks, isWordStr k = true) (hnes : ss ≠ [])
    (hsw : ∀ s ∈ ss, isWordStr s = true) :
    parseCreateIndex u nf (nm :: "ON" :: tb :: "("
        :: (commaToks ks ++ ")" :: ("STORING" :: "("
          :: (commaToks ss ++ [")"]))))
      = some ⟨nm, tb, ks, u, nf, ss⟩ := by
  simp only [parseCreateIndex]
  rw [parse_commaToks ks hne hkw
    ("STORING" :: "(" :: (commaToks ss ++ [")"]))]
  show (match parseCommaIds (commaToks ss ++ [")"]) with
    | some (stor, []) =>
        some (⟨nm, tb, ks, u, nf, stor⟩ : ASTCreateIndex)
    | _ => none) = some ⟨nm, tb, ks, u, nf, ss⟩
  rw [parse_commaToks ss hnes hsw []]

set_option maxRecDepth 80000 in
/-- C3 (counterexample): the claim that parsing the rendered schema yields
the schema back is false: a NULL_FILTERED index renders without
NULL_FILTERED (`generateCreateIndex` never emits it), so the re-parsed
schema holds the index with `nullFiltered = false`. -/
theorem c3_counterexample :
    ParseDDLs "CREATE TABLE t (id INT64 NOT NULL) PRIMARY KEY (id); CREATE NULL_FILTERED INDEX idx ON t (id)"
      = some exNFSchema
    ∧ GenerateDDLs ⟨[], []⟩ exNFSchema
      = some ["CREATE TABLE t (\n  id INT64 NOT NULL\n) PRIMARY KEY (id)",
              "CREATE INDEX idx ON t (id)"]
    ∧ ParseDDLs (joinStr ";"
        ["CREATE TABLE t (\n  id INT64 NOT NULL\n) PRIMARY KEY (id)",
         "CREATE INDEX idx ON t (id)"])
      = some ⟨exNFSchema.tables,
          [("idx", ⟨"idx", "t", ["id"], false, false, []⟩)]⟩
    ∧ (⟨exNFSchema.tables,
          [("idx", ⟨"idx", "t", ["id"], false, false, []⟩)]⟩ : Schema)
      ≠ exNFSchema :=
  ⟨by decide, by decide, by decide, by decide⟩

/-- C3 (amended): the round trip holds for the index renderer restricted
to indexes without NULL_FILTERED: for every index whose name, table name,
key columns (at least one) and storing columns are identifier tokens and
whose `nullFiltered` is false, lexing and parsing the rendered
CREATE INDEX statement recovers exactly the index record. For
`nullFiltered = true` it fails (see the counterexample), because the
renderer never emits NULL_FILTERED. -/
theorem c3_theorem (i : Index)
    (hname : isWordStr i.name = true) (htab : isWordStr i.tableName = true)
    (hkeys : i.columns ≠ []) (hkw : ∀ k ∈ i.columns, isWordStr k = true)
    (hsw : ∀ s ∈ i.storing, isWordStr s = true)
    (hnf : i.nullFiltered = false) :
    ∃ ci, parseStatement (tokenize (generateCreateIndex i).data)
        = some (Stmt.createIndex ci) ∧ indexFromAST ci = i := by
  refine ⟨⟨i.name, i.tableName, i.columns, i.unique, false, i.storing⟩,
    ?_, ?_⟩
  · rw [tokenize_generateCreateIndex i hname htab hkeys hkw hsw]
    cases hst : i.storing with
    | nil =>
        cases hu : i.unique with
        | false =>
            show (parseCreateIndex false false (i.name :: "ON"
                :: i.tableName :: "("
                :: (commaToks i.columns ++ [")"]))).map Stmt.createIndex
              = some (Stmt.createIndex
                  ⟨i.name, i.tableName, i.columns, false, false, []⟩)
            rw [parseCreateIndex_tokens false false i.name i.tableName
              i.columns hkeys hkw]
            rfl
        | true =>
            show (parseCreateIndex true false (i.name :: "ON"
                :: i.tableName :: "("
                :: (commaToks i.columns ++ [")"]))).map Stmt.createIndex
              = some (Stmt.createIndex
                  ⟨i.name, i.tableName, i.columns, true, false, []⟩)
            rw [parseCreateIndex_tokens true false i.name i.tableName
              i.columns hkeys hkw]
            rfl
    | cons s ss =>
        rw [hst] at hsw
        cases hu : i.unique with
        | false =>
            show (parseCreateIndex false false (i.name :: "ON"
                :: i.tableName :: "("
                :: (commaToks i.columns ++ ")" :: ("STORING" :: "("
                  :: (commaToks (s :: ss) ++ [")"]))))).map Stmt.createIndex
              = some (Stmt.createIndex
                  ⟨i.name, i.tableName, i.columns, false, false, s :: ss⟩)
            rw [parseCreateIndex_tokens_storing false false i.name
              i.tableName i.columns (s :: ss) hkeys hkw
              (List.cons_ne_nil s ss) hsw]
            rfl
        | true =>
            show (parseCreateIndex true false (i.name :: "ON"
                :: i.tableName :: "("
                :: (commaToks i.columns ++ ")" :: ("STORING" :: "("
                  :: (commaToks (s :: ss) ++ [")"]))))).map Stmt.createIndex
              = some (Stmt.createIndex
                  ⟨i.name, i.tableName, i.columns, true, false, s :: ss⟩)
            rw [parseCreateIndex_tokens_storing true false i.name
              i.tableName i.columns (s :: ss) hkeys hkw
              (List.cons_ne_nil s ss) hsw]
            rfl
  · cases i with
    | mk nm tb cols u nf st =>
        cases hnf
        rfl

/-- Witness for `c3_theorem`: the plain index `idx` round-trips. -/
theorem c3_witness :
    ∃ ci, parseStatement (tokenize (generateCreateIndex exIdxA).data)
        = some (Stmt.createIndex ci) ∧ indexFromAST ci = exIdxA :=
  c3_theorem exIdxA (by decide) (by decide) (by decide) (by decide)
    (by decide) (by decide)

end SpannerDef
